import Mathlib

/-!
Verification of the peach-math-field core: a shallow embedding of the
expression-tree model, LaTeX tokenizer/parser/serializer, cursor and
selection calculus, editor state with undo/redo history, and the
insert/delete/navigate command engine, together with proofs of the
documented behavioural laws.

Conventions of the embedding:
* TypeScript readonly arrays become `List`, optional fields become `Option`,
  tagged unions become inductive types, and `undefined`-tolerant field access
  becomes explicit `Option` matching.
* Loops whose progress measure is not a structural argument (parser descent,
  path walks that repeatedly drop the last component, focusable search) take
  an explicit fuel argument that is chosen at the wrapper to exceed the
  recursion depth of the source program, keeping every definition computable
  by kernel reduction.
* Functions returning `T | null` become `Option`; functions that `throw`
  become `Except String`.
-/

namespace PeachMath

/-! ## Expression tree (src/core/ast.ts) -/

/-- Expression-tree node: a closed tagged union with one constructor per
`kind`.  `space` sizes, `parens` delimiters, matrix styles and the optional
`parens.size` marker are kept as strings, exactly the literal values the
source stores.  A `func` node's `limits` field is `Option` of a
lower/upper pair of optional nodes, mirroring `{ lower?, upper? }`. -/
inductive MathNode where
  | number (value : String)
  | symbol (value : String)
  | operator (value : String)
  | text (value : String)
  | space (size : String)
  | placeholder
  | row (children : List MathNode)
  | fraction (numerator denominator : MathNode)
  | power (base exponent : MathNode)
  | subscript (base sub : MathNode)
  | subsup (base sub sup : MathNode)
  | sqrt (radicand : MathNode) (index : Option MathNode)
  | parens (openDelim closeDelim : String) (content : MathNode) (psize : Option String)
  | func (name : String) (argument : Option MathNode)
      (limits : Option (Option MathNode × Option MathNode))
  | matrix (rows : List (List MathNode)) (style : String) (colSpec : Option String)

mutual

/-- Size measure on nodes, used as a fuel bound for traversals whose source
recursion is by tree depth. -/
def nodeSize : MathNode → Nat
  | .row cs => 1 + nodeSizeList cs
  | .fraction a b => 1 + nodeSize a + nodeSize b
  | .power a b => 1 + nodeSize a + nodeSize b
  | .subscript a b => 1 + nodeSize a + nodeSize b
  | .subsup a b c => 1 + nodeSize a + nodeSize b + nodeSize c
  | .sqrt r i => 1 + nodeSize r + nodeSizeOpt i
  | .parens _ _ c _ => 1 + nodeSize c
  | .func _ arg (some (lo, hi)) => 1 + nodeSizeOpt arg + nodeSizeOpt lo + nodeSizeOpt hi
  | .func _ arg none => 1 + nodeSizeOpt arg
  | .matrix rows _ _ => 1 + nodeSizeRows rows
  | _ => 1

def nodeSizeOpt : Option MathNode → Nat
  | none => 0
  | some n => nodeSize n

def nodeSizeList : List MathNode → Nat
  | [] => 0
  | c :: cs => 1 + nodeSize c + nodeSizeList cs

def nodeSizeRows : List (List MathNode) → Nat
  | [] => 0
  | r :: rs => 1 + nodeSizeList r + nodeSizeRows rs

end

/-! ## Tokenizer (src/parser/tokens.ts) -/

/-- Token types of the LaTeX tokenizer, one constructor per `TokenType`
string literal of the source. -/
inductive TokenType where
  | command
  | text
  | number
  | operator
  | superscript
  | subscript
  | openBrace
  | closeBrace
  | openBracket
  | closeBracket
  | openParen
  | closeParen
  | pipe
  | ampersand
  | newline
  | whitespace
  | eof
deriving DecidableEq, BEq

/-- Name of a token type as the source's string literal, used by the
parser's stop-set membership test `stopTokens.has(token.type)`. -/
def TokenType.name : TokenType → String
  | .command => "command"
  | .text => "text"
  | .number => "number"
  | .operator => "operator"
  | .superscript => "superscript"
  | .subscript => "subscript"
  | .openBrace => "openBrace"
  | .closeBrace => "closeBrace"
  | .openBracket => "openBracket"
  | .closeBracket => "closeBracket"
  | .openParen => "openParen"
  | .closeParen => "closeParen"
  | .pipe => "pipe"
  | .ampersand => "ampersand"
  | .newline => "newline"
  | .whitespace => "whitespace"
  | .eof => "eof"

structure Token where
  type : TokenType
  value : String
  position : Nat
deriving DecidableEq

/-- Character class of the JavaScript regex `/\s/` restricted to the ASCII
whitespace the editor meets; the exotic Unicode members of `\s` are not
modelled. -/
def isSpaceChar (c : Char) : Bool := c.isWhitespace

/-- Character class `[a-zA-Z]`. -/
def isLetterChar (c : Char) : Bool :=
  ('a' ≤ c && c ≤ 'z') || ('A' ≤ c && c ≤ 'Z')

/-- Character class `[0-9.]` used by `readNumber`. -/
def isNumberChar (c : Char) : Bool := c.isDigit || c == '.'

/-- Tokenizer.readWhitespace: a maximal run of whitespace starting at the
current position. -/
def readWhitespace (cs : List Char) (start : Nat) : Token × List Char × Nat :=
  let ws := cs.takeWhile isSpaceChar
  (⟨.whitespace, String.mk ws, start⟩, cs.dropWhile isSpaceChar, start + ws.length)

/-- Tokenizer.readCommand: called after the leading backslash has been
consumed; `rest` is the input following that backslash. -/
def readCommand (rest : List Char) (start : Nat) : Token × List Char × Nat :=
  match rest with
  | [] => (⟨.command, "\\", start⟩, [], start + 1)
  | d :: rest2 =>
    if d == '\\' then (⟨.newline, "\\\\", start⟩, rest2, start + 2)
    else if !isLetterChar d then (⟨.command, String.mk ['\\', d], start⟩, rest2, start + 2)
    else
      let name := rest.takeWhile isLetterChar
      (⟨.command, "\\" ++ String.mk name, start⟩, rest.dropWhile isLetterChar,
        start + 1 + name.length)

/-- Tokenizer.readNumber: a maximal run of digits and `.`. -/
def readNumber (cs : List Char) (start : Nat) : Token × List Char × Nat :=
  let num := cs.takeWhile isNumberChar
  (⟨.number, String.mk num, start⟩, cs.dropWhile isNumberChar, start + num.length)

/-- Tokenizer.nextToken on a non-empty input `c :: rest`; returns the token,
the remaining input and the new position.  Branch order follows the source:
whitespace, command, number, special characters, letters, unknown-as-text. -/
def nextToken (c : Char) (rest : List Char) (start : Nat) : Token × List Char × Nat :=
  if isSpaceChar c then readWhitespace (c :: rest) start
  else if c == '\\' then readCommand rest start
  else if c.isDigit then readNumber (c :: rest) start
  else
    match c with
    | '{' => (⟨.openBrace, String.singleton c, start⟩, rest, start + 1)
    | '}' => (⟨.closeBrace, String.singleton c, start⟩, rest, start + 1)
    | '[' => (⟨.openBracket, String.singleton c, start⟩, rest, start + 1)
    | ']' => (⟨.closeBracket, String.singleton c, start⟩, rest, start + 1)
    | '(' => (⟨.openParen, String.singleton c, start⟩, rest, start + 1)
    | ')' => (⟨.closeParen, String.singleton c, start⟩, rest, start + 1)
    | '^' => (⟨.superscript, String.singleton c, start⟩, rest, start + 1)
    | '_' => (⟨.subscript, String.singleton c, start⟩, rest, start + 1)
    | '&' => (⟨.ampersand, String.singleton c, start⟩, rest, start + 1)
    | '|' => (⟨.pipe, String.singleton c, start⟩, rest, start + 1)
    | '+' | '-' | '=' | '<' | '>' | '*' | '/' | '!' | '\'' | ',' | '.' | ':' | ';' =>
      (⟨.operator, String.singleton c, start⟩, rest, start + 1)
    | _ =>
      if isLetterChar c then (⟨.text, String.singleton c, start⟩, rest, start + 1)
      else (⟨.text, String.singleton c, start⟩, rest, start + 1)

/-- Tokenizer.tokenize main loop; the fuel is the length of the remaining
input, which bounds the number of tokens since every token consumes at least
one character. -/
def tokenizeAux : Nat → List Char → Nat → List Token
  | 0, _, _ => []
  | _ + 1, [], _ => []
  | fuel + 1, c :: rest, posn =>
    let r := nextToken c rest posn
    r.1 :: tokenizeAux fuel r.2.1 r.2.2

/-- tokenize: the full token list of a source string, terminated by an
explicit end-of-input token. -/
def tokenize (s : String) : List Token :=
  tokenizeAux s.length s.data 0 ++ [⟨.eof, "", s.length⟩]

/-- Concatenation of the value fields of a token list, used to state that
tokenization partitions the input. -/
def concatValues (ts : List Token) : String :=
  ts.foldr (fun t acc => t.value ++ acc) ""

/-! ## Token stream operations (TokenStream in src/parser/tokens.ts) -/

/-- Sentinel returned when peeking past the end of the token list; the
source uses position `-1`, which a `Nat` position renders as `0` — the
sentinel's position never reaches a result. -/
def eofSentinel : Token := ⟨.eof, "", 0⟩

def peekTok (ts : List Token) : Token := ts.headD eofSentinel

def isEofTs (ts : List Token) : Bool := (peekTok ts).type == TokenType.eof

def skipWs (ts : List Token) : List Token :=
  ts.dropWhile (fun t => t.type == TokenType.whitespace)

/-- TokenStream.expect: consume a token of the given type or fail. -/
def expectType (t : TokenType) (ts : List Token) : Except String (Token × List Token) :=
  let tok := peekTok ts
  if tok.type == t then .ok (tok, ts.tail)
  else .error ("Expected " ++ t.name ++ ", got " ++ tok.type.name)

/-- TokenStream.expectValue: consume a token matching type and value or fail. -/
def expectValue (t : TokenType) (v : String) (ts : List Token) :
    Except String (Token × List Token) :=
  let tok := peekTok ts
  if tok.type == t && tok.value == v then .ok (tok, ts.tail)
  else .error ("Expected " ++ t.name ++ ":" ++ v)

/-- Shared loop of parseText, parseEnvironment and the array column spec:
concatenate token values until a closing brace or end of input. -/
def collectUntilCloseBrace : List Token → String × List Token
  | [] => ("", [])
  | tok :: rest =>
    if tok.type == TokenType.closeBrace || tok.type == TokenType.eof then ("", tok :: rest)
    else
      let r := collectUntilCloseBrace rest
      (tok.value ++ r.1, r.2)

/-! ## Parser vocabulary (src/parser/latex-to-ast.ts) -/

def GREEK_LETTERS : List String :=
  ["alpha", "beta", "gamma", "delta", "epsilon", "zeta", "eta", "theta",
   "iota", "kappa", "lambda", "mu", "nu", "xi", "omicron", "pi",
   "rho", "sigma", "tau", "upsilon", "phi", "chi", "psi", "omega",
   "Alpha", "Beta", "Gamma", "Delta", "Epsilon", "Zeta", "Eta", "Theta",
   "Iota", "Kappa", "Lambda", "Mu", "Nu", "Xi", "Omicron", "Pi",
   "Rho", "Sigma", "Tau", "Upsilon", "Phi", "Chi", "Psi", "Omega",
   "varepsilon", "vartheta", "varpi", "varrho", "varsigma", "varphi"]

def PARSER_OPERATORS : List String :=
  ["times", "div", "cdot", "pm", "mp", "ast", "star", "circ", "bullet",
   "oplus", "ominus", "otimes", "oslash", "odot",
   "le", "leq", "ge", "geq", "neq", "ne", "approx", "equiv", "sim", "simeq",
   "ll", "gg", "subset", "supset", "subseteq", "supseteq", "in", "notin", "ni",
   "cup", "cap", "setminus", "emptyset", "varnothing",
   "forall", "exists", "nexists", "neg", "land", "lor", "implies", "iff",
   "to", "gets", "leftarrow", "rightarrow", "leftrightarrow",
   "Leftarrow", "Rightarrow", "Leftrightarrow",
   "infty", "partial", "nabla", "degree",
   "ldots", "cdots", "vdots", "ddots",
   "mapsto", "longmapsto",
   "uparrow", "downarrow", "updownarrow",
   "Uparrow", "Downarrow", "Updownarrow",
   "nearrow", "searrow", "swarrow", "nwarrow",
   "propto", "cong", "mid",
   "%"]

def PARSER_FUNCTIONS : List String :=
  ["sin", "cos", "tan", "cot", "sec", "csc",
   "arcsin", "arccos", "arctan", "arccot",
   "sinh", "cosh", "tanh", "coth",
   "log", "ln", "lg", "exp",
   "lim", "limsup", "liminf",
   "min", "max", "sup", "inf",
   "det", "dim", "ker", "hom", "arg",
   "deg", "gcd", "lcm", "mod", "bmod", "pmod",
   "Pr"]

def LARGE_OPERATORS : List String :=
  ["sum", "prod", "coprod", "int", "oint", "iint", "iiint",
   "bigcup", "bigcap", "bigoplus", "bigotimes", "bigvee", "bigwedge"]

def MATRIX_ENVIRONMENTS : List String :=
  ["matrix", "pmatrix", "bmatrix", "Bmatrix", "vmatrix", "Vmatrix", "array"]

/-- SPACE_COMMANDS record of the parser: full command token value to the
space-size tag. -/
def spaceCommandSize : String → Option String
  | "\\," => some "thin"
  | "\\:" => some "medium"
  | "\\;" => some "thick"
  | "\\quad" => some "quad"
  | "\\qquad" => some "qquad"
  | _ => none

/-- Delimiter commands recognized by parseCommand and re-emitted as
operator nodes. -/
def isDelimiterCommand (cmd : String) : Bool :=
  cmd == "langle" || cmd == "rangle" || cmd == "lvert" || cmd == "rvert" ||
  cmd == "lVert" || cmd == "rVert" || cmd == "lfloor" || cmd == "rfloor" ||
  cmd == "lceil" || cmd == "rceil"

/-- Row-simplification at the end of parseRow: zero children collapse to a
placeholder, exactly one child is returned without a row wrapper. -/
def simplifyRow : List MathNode → MathNode
  | [] => .placeholder
  | [c] => c
  | cs => .row cs

/-- Parser.parseDelimiter: the delimiter accepted after a left or right
command. -/
def parseDelimiter (ts : List Token) : Except String (String × List Token) :=
  let ts1 := skipWs ts
  let tok := peekTok ts1
  let rest := ts1.tail
  match tok.type with
  | .openParen => .ok ("(", rest)
  | .closeParen => .ok (")", rest)
  | .openBracket => .ok ("[", rest)
  | .closeBracket => .ok ("]", rest)
  | .pipe => .ok ("|", rest)
  | .operator =>
    if tok.value == "." then .ok (".", rest)
    else .error ("Invalid delimiter: " ++ tok.value)
  | .command =>
    let cmd := tok.value.drop 1
    if cmd == "langle" then .ok ("\\langle", rest)
    else if cmd == "rangle" then .ok ("\\rangle", rest)
    else if cmd == "\x7b" || cmd == "lbrace" then .ok ("\x7b", rest)
    else if cmd == "\x7d" || cmd == "rbrace" then .ok ("\x7d", rest)
    else if cmd == "|" || cmd == "vert" then .ok ("|", rest)
    else if cmd == "Vert" || cmd == "|" then .ok ("\\|", rest)
    else .error ("Invalid delimiter: " ++ tok.value)
  | _ => .error ("Invalid delimiter: " ++ tok.value)

/-- Parser.parseText body after the command token: consumes the braced
group and joins all token values into a text node. -/
def parseTextCmd (ts : List Token) : Except String (MathNode × List Token) := do
  let ts1 := skipWs ts
  let (_, ts2) ← expectType .openBrace ts1
  let r := collectUntilCloseBrace ts2
  let (_, ts3) ← expectType .closeBrace r.2
  pure (.text r.1, ts3)

mutual

/-- Parser.parseRow: collect atoms until a stop token, then apply row
simplification.  Fuel exhaustion yields an error that generous wrapper fuel
makes unreachable. -/
def parseRowF : Nat → List String → List Token → Except String (MathNode × List Token)
  | 0, _, _ => .error "parser fuel exhausted"
  | f + 1, stop, ts => do
    let (children, ts') ← parseRowAux f stop [] ts
    pure (simplifyRow children, ts')

/-- Loop body of Parser.parseRow. -/
def parseRowAux : Nat → List String → List MathNode → List Token →
    Except String (List MathNode × List Token)
  | 0, _, _, _ => .error "parser fuel exhausted"
  | f + 1, stop, acc, ts =>
    if isEofTs ts then .ok (acc, ts)
    else
      let ts1 := skipWs ts
      let tok := peekTok ts1
      if stop.contains tok.value || stop.contains tok.type.name then .ok (acc, ts1)
      else if tok.type == TokenType.closeBrace || tok.type == TokenType.closeBracket ||
          tok.type == TokenType.closeParen then .ok (acc, ts1)
      else if tok.type == TokenType.ampersand || tok.type == TokenType.newline then
        .ok (acc, ts1)
      else do
        let (atom, ts2) ← parseAtomF f ts1
        match atom with
        | some a => parseRowAux f stop (acc ++ [a]) ts2
        | none => parseRowAux f stop acc ts2

/-- Parser.parseAtom: dispatch on the token type; `none` means no atom
(end of input). -/
def parseAtomF : Nat → List Token → Except String (Option MathNode × List Token)
  | 0, _ => .error "parser fuel exhausted"
  | f + 1, ts0 =>
    let ts := skipWs ts0
    let tok := peekTok ts
    match tok.type with
    | .number => do
      let (n, ts') ← parseScriptF f (.number tok.value) ts.tail
      pure (some n, ts')
    | .text => do
      let (n, ts') ← parseScriptF f (.symbol tok.value) ts.tail
      pure (some n, ts')
    | .operator => pure (some (.operator tok.value), ts.tail)
    | .command => do
      let (n, ts') ← parseCommandF f ts
      pure (some n, ts')
    | .openBrace => do
      let (n, ts') ← parseGroupF f ts
      pure (some n, ts')
    | .openParen => do
      let (n, ts') ← parseDelimitedGroupF f ts
      pure (some n, ts')
    | .openBracket => do
      let (n, ts') ← parseDelimitedGroupF f ts
      pure (some n, ts')
    | .pipe => do
      let (n, ts') ← parseDelimitedGroupF f ts
      pure (some n, ts')
    | .superscript => do
      let (n, ts') ← parseScriptF f .placeholder ts
      pure (some n, ts')
    | .subscript => do
      let (n, ts') ← parseScriptF f .placeholder ts
      pure (some n, ts')
    | _ => pure (none, ts)

/-- Parser.parseCommand: classify a command token against the fixed
vocabularies and dispatch; unknown commands degrade to symbol nodes. -/
def parseCommandF : Nat → List Token → Except String (MathNode × List Token)
  | 0, _ => .error "parser fuel exhausted"
  | f + 1, ts =>
    let tok := peekTok ts
    let ts1 := ts.tail
    let cmd := tok.value.drop 1
    match spaceCommandSize tok.value with
    | some sz => .ok (.space sz, ts1)
    | none =>
      if GREEK_LETTERS.contains cmd then parseScriptF f (.symbol cmd) ts1
      else if PARSER_OPERATORS.contains cmd then .ok (.operator cmd, ts1)
      else if PARSER_FUNCTIONS.contains cmd then parseScriptF f (.func cmd none none) ts1
      else if LARGE_OPERATORS.contains cmd then parseLargeOperatorF f cmd ts1
      else if cmd == "frac" then parseFractionF f ts1
      else if cmd == "sqrt" then parseSqrtF f ts1
      else if cmd == "text" || cmd == "textit" || cmd == "textbf" || cmd == "mathrm" then
        parseTextCmd ts1
      else if cmd == "left" then parseLeftRightF f ts1
      else if cmd == "begin" then parseEnvironmentF f ts1
      else if isDelimiterCommand cmd then .ok (.operator cmd, ts1)
      else parseScriptF f (.symbol cmd) ts1

/-- Parser.parseScript: attach at most one superscript and one subscript to
a base atom. -/
def parseScriptF : Nat → MathNode → List Token → Except String (MathNode × List Token)
  | 0, _, _ => .error "parser fuel exhausted"
  | f + 1, base, ts0 => do
    let ts := skipWs ts0
    let (sup, sub, ts') ← parseScriptLoop f false false none none ts
    match sup, sub with
    | some s, some b => pure (.subsup base b s, ts')
    | some s, none => pure (.power base s, ts')
    | none, some b => pure (.subscript base b, ts')
    | none, none => pure (base, ts')

/-- While-loop of parseScript; a repeated script breaks out without
consuming. -/
def parseScriptLoop : Nat → Bool → Bool → Option MathNode → Option MathNode → List Token →
    Except String (Option MathNode × Option MathNode × List Token)
  | 0, _, _, _, _, _ => .error "parser fuel exhausted"
  | f + 1, hasSuper, hasSub, sup, sub, ts =>
    if (peekTok ts).type == TokenType.superscript then
      if hasSuper then .ok (sup, sub, ts)
      else do
        let (arg, ts1) ← parseScriptArgF f ts.tail
        parseScriptLoop f true hasSub (some arg) sub (skipWs ts1)
    else if (peekTok ts).type == TokenType.subscript then
      if hasSub then .ok (sup, sub, ts)
      else do
        let (arg, ts1) ← parseScriptArgF f ts.tail
        parseScriptLoop f hasSuper true sup (some arg) (skipWs ts1)
    else .ok (sup, sub, ts)

/-- Parser.parseScriptArg: a braced group or a single token; anything else
yields a placeholder without consuming. -/
def parseScriptArgF : Nat → List Token → Except String (MathNode × List Token)
  | 0, _ => .error "parser fuel exhausted"
  | f + 1, ts0 =>
    let ts := skipWs ts0
    if (peekTok ts).type == TokenType.openBrace then parseGroupF f ts
    else
      let tok := peekTok ts
      match tok.type with
      | .number => .ok (.number tok.value, ts.tail)
      | .text => .ok (.symbol tok.value, ts.tail)
      | .command => parseCommandF f ts
      | _ => .ok (.placeholder, ts)

/-- Parser.parseGroup: a braced row. -/
def parseGroupF : Nat → List Token → Except String (MathNode × List Token)
  | 0, _ => .error "parser fuel exhausted"
  | f + 1, ts => do
    let (_, ts1) ← expectType .openBrace ts
    let (content, ts2) ← parseRowF f [] ts1
    let (_, ts3) ← expectType .closeBrace ts2
    pure (content, ts3)

/-- Parser.parseDelimitedGroup: literal parentheses, brackets or pipes. -/
def parseDelimitedGroupF : Nat → List Token → Except String (MathNode × List Token)
  | 0, _ => .error "parser fuel exhausted"
  | f + 1, ts =>
    let tok := peekTok ts
    let ts1 := ts.tail
    match tok.type with
    | .openParen => do
      let (content, ts2) ← parseRowF f [")"] ts1
      let (_, ts3) ← expectType .closeParen ts2
      parseScriptF f (.parens "(" ")" content none) ts3
    | .openBracket => do
      let (content, ts2) ← parseRowF f ["]"] ts1
      let (_, ts3) ← expectType .closeBracket ts2
      parseScriptF f (.parens "[" "]" content none) ts3
    | .pipe => do
      let (content, ts2) ← parseRowF f ["|"] ts1
      let (_, ts3) ← expectType .pipe ts2
      parseScriptF f (.parens "|" "|" content none) ts3
    | _ => .error ("Unexpected delimiter: " ++ tok.value)

/-- Parser.parseFraction. -/
def parseFractionF : Nat → List Token → Except String (MathNode × List Token)
  | 0, _ => .error "parser fuel exhausted"
  | f + 1, ts => do
    let ts1 := skipWs ts
    let (numerator, ts2) ← parseGroupF f ts1
    let ts3 := skipWs ts2
    let (denominator, ts4) ← parseGroupF f ts3
    parseScriptF f (.fraction numerator denominator) ts4

/-- Parser.parseSqrt with the optional bracketed index. -/
def parseSqrtF : Nat → List Token → Except String (MathNode × List Token)
  | 0, _ => .error "parser fuel exhausted"
  | f + 1, ts =>
    let ts1 := skipWs ts
    if (peekTok ts1).type == TokenType.openBracket then do
      let (index, ts2) ← parseRowF f ["]"] ts1.tail
      let (_, ts3) ← expectType .closeBracket ts2
      let ts4 := skipWs ts3
      let (radicand, ts5) ← parseGroupF f ts4
      parseScriptF f (.sqrt radicand (some index)) ts5
    else do
      let ts4 := skipWs ts1
      let (radicand, ts5) ← parseGroupF f ts4
      parseScriptF f (.sqrt radicand none) ts5

/-- Parser.parseLargeOperator: optional limits in either order, attached to
the function node instead of power/subscript wrappers. -/
def parseLargeOperatorF : Nat → String → List Token → Except String (MathNode × List Token)
  | 0, _, _ => .error "parser fuel exhausted"
  | f + 1, name, ts =>
    let ts1 := skipWs ts
    if (peekTok ts1).type == TokenType.subscript then do
      let (lo, ts2) ← parseScriptArgF f ts1.tail
      let ts3 := skipWs ts2
      if (peekTok ts3).type == TokenType.superscript then do
        let (hi, ts4) ← parseScriptArgF f ts3.tail
        let ts5 := skipWs ts4
        pure (.func name none (some (some lo, some hi)), ts5)
      else pure (.func name none (some (some lo, none)), ts3)
    else if (peekTok ts1).type == TokenType.superscript then do
      let (hi, ts2) ← parseScriptArgF f ts1.tail
      let ts3 := skipWs ts2
      if (peekTok ts3).type == TokenType.subscript then do
        let (lo, ts4) ← parseScriptArgF f ts3.tail
        pure (.func name none (some (some lo, some hi)), ts4)
      else pure (.func name none (some (none, some hi)), ts3)
    else pure (.func name none none, ts1)

/-- Parser.parseLeftRight. -/
def parseLeftRightF : Nat → List Token → Except String (MathNode × List Token)
  | 0, _ => .error "parser fuel exhausted"
  | f + 1, ts => do
    let (openDelim, ts1) ← parseDelimiter ts
    let (content, ts2) ← parseRowF f ["\\right"] ts1
    let (_, ts3) ← expectValue .command "\\right" ts2
    let (closeDelim, ts4) ← parseDelimiter ts3
    parseScriptF f (.parens openDelim closeDelim content (some "auto")) ts4

/-- Parser.parseEnvironment: only matrix environments are accepted. -/
def parseEnvironmentF : Nat → List Token → Except String (MathNode × List Token)
  | 0, _ => .error "parser fuel exhausted"
  | f + 1, ts => do
    let ts1 := skipWs ts
    let (_, ts2) ← expectType .openBrace ts1
    let r := collectUntilCloseBrace ts2
    let (_, ts3) ← expectType .closeBrace r.2
    if MATRIX_ENVIRONMENTS.contains r.1 then parseMatrixF f r.1 ts3
    else .error ("Unknown environment: " ++ r.1)

/-- Parser.parseMatrix: optional array column spec, the cell loop, and the
closing environment-name check. -/
def parseMatrixF : Nat → String → List Token → Except String (MathNode × List Token)
  | 0, _, _ => .error "parser fuel exhausted"
  | f + 1, style, ts => do
    let (colSpec, ts1) ←
      if style == "array" then do
        let tsA := skipWs ts
        let (_, tsB) ← expectType .openBrace tsA
        let r := collectUntilCloseBrace tsB
        let (_, tsC) ← expectType .closeBrace r.2
        pure ((some r.1 : Option String), tsC)
      else pure ((none : Option String), ts)
    let (rows0, currentRow, ts2) ← parseMatrixLoop f [] [] ts1
    let rows := if currentRow.isEmpty then rows0 else rows0 ++ [currentRow]
    let (_, ts3) ← expectValue .command "\\end" ts2
    let ts4 := skipWs ts3
    let (_, ts5) ← expectType .openBrace ts4
    let r2 := collectUntilCloseBrace ts5
    let (_, ts6) ← expectType .closeBrace r2.2
    if r2.1 != style then .error "Environment mismatch"
    else parseScriptF f (.matrix rows style colSpec) ts6

/-- Cell-accumulation loop of parseMatrix. -/
def parseMatrixLoop : Nat → List (List MathNode) → List MathNode → List Token →
    Except String (List (List MathNode) × List MathNode × List Token)
  | 0, _, _, _ => .error "parser fuel exhausted"
  | f + 1, rows, cur, ts =>
    if isEofTs ts then .ok (rows, cur, ts)
    else
      let ts1 := skipWs ts
      let tok := peekTok ts1
      if tok.type == TokenType.command && tok.value == "\\end" then .ok (rows, cur, ts1)
      else if tok.type == TokenType.newline then parseMatrixLoop f (rows ++ [cur]) [] ts1.tail
      else if tok.type == TokenType.ampersand then parseMatrixLoop f rows cur ts1.tail
      else do
        let (cell, ts2) ← parseRowF f ["&", "\\\\", "\\end"] ts1
        parseMatrixLoop f rows (cur ++ [cell]) ts2

end

/-- Parser.parse: a full row, then reject trailing tokens. -/
def parseTokens (fuel : Nat) (ts : List Token) : Except String MathNode := do
  let (result, ts') ← parseRowF fuel [] ts
  if isEofTs ts' then pure result
  else .error "Unexpected token"

/-- parseLatex entry point.  The fuel multiple exceeds the descent depth of
the source parser, which consumes at least one token per nesting level and
per loop iteration. -/
def parseLatex (s : String) : Except String MathNode :=
  let toks := tokenize s
  parseTokens (4 * toks.length + 16) toks

/-! ## Structural equality (nodesEqual in src/core/ast.ts) -/

mutual

/-- Deep equality of two nodes; the fuel bounds the simultaneous descent
and the wrapper passes more than the source consumes. -/
def nodesEqualF : Nat → MathNode → MathNode → Bool
  | 0, _, _ => false
  | f + 1, a, b =>
    match a, b with
    | .number x, .number y => x == y
    | .symbol x, .symbol y => x == y
    | .operator x, .operator y => x == y
    | .text x, .text y => x == y
    | .space x, .space y => x == y
    | .placeholder, .placeholder => true
    | .row xs, .row ys => xs.length == ys.length && nodesEqualListF f xs ys
    | .fraction a1 a2, .fraction b1 b2 => nodesEqualF f a1 b1 && nodesEqualF f a2 b2
    | .power a1 a2, .power b1 b2 => nodesEqualF f a1 b1 && nodesEqualF f a2 b2
    | .subscript a1 a2, .subscript b1 b2 => nodesEqualF f a1 b1 && nodesEqualF f a2 b2
    | .subsup a1 a2 a3, .subsup b1 b2 b3 =>
      nodesEqualF f a1 b1 && nodesEqualF f a2 b2 && nodesEqualF f a3 b3
    | .sqrt x ai, .sqrt y bi => nodesEqualF f x y && nodesEqualOptF f ai bi
    | .parens ao ac act asz, .parens bo bc bct bsz =>
      ao == bo && ac == bc && asz == bsz && nodesEqualF f act bct
    | .func an aa al, .func bn ba bl =>
      an == bn && nodesEqualOptF f aa ba && nodesEqualLimitsF f al bl
    | .matrix ar ast acs, .matrix br bst bcs =>
      ast == bst && acs == bcs && ar.length == br.length && nodesEqualRowsF f ar br
    | _, _ => false

/-- Equality of optional sub-nodes: both present and equal, or both absent. -/
def nodesEqualOptF : Nat → Option MathNode → Option MathNode → Bool
  | 0, _, _ => false
  | f + 1, x, y =>
    match x, y with
    | some a, some b => nodesEqualF f a b
    | none, none => true
    | _, _ => false

/-- Equality of the optional limits pair of a function node. -/
def nodesEqualLimitsF : Nat → Option (Option MathNode × Option MathNode) →
    Option (Option MathNode × Option MathNode) → Bool
  | 0, _, _ => false
  | f + 1, x, y =>
    match x, y with
    | some (alo, ahi), some (blo, bhi) => nodesEqualOptF f alo blo && nodesEqualOptF f ahi bhi
    | none, none => true
    | _, _ => false

def nodesEqualListF : Nat → List MathNode → List MathNode → Bool
  | 0, _, _ => false
  | _ + 1, [], [] => true
  | f + 1, a :: xs, b :: ys => nodesEqualF f a b && nodesEqualListF f xs ys
  | _ + 1, _, _ => false

def nodesEqualRowsF : Nat → List (List MathNode) → List (List MathNode) → Bool
  | 0, _, _ => false
  | _ + 1, [], [] => true
  | f + 1, a :: xs, b :: ys =>
    a.length == b.length && nodesEqualListF f a b && nodesEqualRowsF f xs ys
  | _ + 1, _, _ => false

end

/-- nodesEqual wrapper with fuel exceeding the recursion depth of the
simultaneous descent. -/
def nodesEqual (a b : MathNode) : Bool :=
  nodesEqualF (3 * nodeSize a + 8) a b

/-! ## Serializer (src/parser/ast-to-latex.ts) -/

/-- Operators that regain a backslash prefix when serialized. -/
def COMMAND_OPERATORS : List String :=
  ["times", "div", "cdot", "pm", "mp", "ast", "star", "circ", "bullet",
   "oplus", "ominus", "otimes", "oslash", "odot",
   "le", "leq", "ge", "geq", "neq", "ne", "approx", "equiv", "sim", "simeq",
   "ll", "gg", "subset", "supset", "subseteq", "supseteq", "in", "notin", "ni",
   "cup", "cap", "setminus", "emptyset", "varnothing",
   "forall", "exists", "nexists", "neg", "land", "lor", "implies", "iff",
   "to", "gets", "leftarrow", "rightarrow", "leftrightarrow",
   "Leftarrow", "Rightarrow", "Leftrightarrow",
   "infty", "partial", "nabla", "degree",
   "ldots", "cdots", "vdots", "ddots",
   "langle", "rangle", "lvert", "rvert", "lVert", "rVert",
   "lfloor", "rfloor", "lceil", "rceil",
   "mapsto", "longmapsto",
   "uparrow", "downarrow", "updownarrow",
   "Uparrow", "Downarrow", "Updownarrow",
   "nearrow", "searrow", "swarrow", "nwarrow",
   "propto", "cong", "mid",
   "%"]

/-- Function names the serializer re-emits with a backslash; this set also
contains the large operators. -/
def SERIALIZER_FUNCTIONS : List String :=
  ["sin", "cos", "tan", "cot", "sec", "csc",
   "arcsin", "arccos", "arctan", "arccot",
   "sinh", "cosh", "tanh", "coth",
   "log", "ln", "lg", "exp",
   "lim", "limsup", "liminf",
   "min", "max", "sup", "inf",
   "det", "dim", "ker", "hom", "arg",
   "deg", "gcd", "lcm", "mod", "bmod", "pmod",
   "Pr",
   "sum", "prod", "coprod", "int", "oint", "iint", "iiint",
   "bigcup", "bigcap", "bigoplus", "bigotimes", "bigvee", "bigwedge"]

structure SerializeOptions where
  prettyPrint : Bool
  includePlaceholders : Bool
deriving DecidableEq

/-- String.startsWith at the character-list level, since the built-in
byte-position implementation does not reduce in the kernel. -/
def strStartsWith (s pre : String) : Bool :=
  pre.data.isPrefixOf s.data

/-- SPACE_COMMANDS record of the serializer, with the source's empty-string
default for an unknown size. -/
def spaceCommandString : String → String
  | "thin" => "\\,"
  | "medium" => "\\:"
  | "thick" => "\\;"
  | "quad" => "\\quad"
  | "qquad" => "\\qquad"
  | _ => ""

/-- serializeSymbol on the symbol's value. -/
def serializeSymbolV (v : String) : String :=
  if GREEK_LETTERS.contains v then "\\" ++ v else v

/-- serializeOperator on the operator's value. -/
def serializeOperatorV (v : String) (options : SerializeOptions) : String :=
  let space := if options.prettyPrint then " " else ""
  if COMMAND_OPERATORS.contains v then space ++ "\\" ++ v ++ " "
  else if v == "+" || v == "-" || v == "=" || v == "<" || v == ">" then
    space ++ v ++ space
  else v

/-- needsBraces: whether a node used as an exponent or script argument must
be brace-wrapped. -/
def needsBraces : MathNode → Bool
  | .row _ => true
  | .number v => v.length > 1
  | .symbol v => v.length > 1 && !GREEK_LETTERS.contains v
  | .placeholder => true
  | .fraction _ _ => true
  | .sqrt _ _ => true
  | .parens _ _ _ _ => true
  | .power _ _ => true
  | .subscript _ _ => true
  | .subsup _ _ _ => true
  | _ => false

/-- serializeDelimiter for left/right form. -/
def serializeDelimiter (delim : String) : String :=
  if delim == "(" || delim == ")" || delim == "[" || delim == "]" || delim == "|" then delim
  else if delim == "\x7b" then "\\\x7b"
  else if delim == "\x7d" then "\\\x7d"
  else if delim == "\\|" then "\\|"
  else if delim == "\\langle" then "\\langle"
  else if delim == "\\rangle" then "\\rangle"
  else if delim == "." then "."
  else delim

mutual

/-- serializeNode: kind dispatch of the serializer.  The fuel is a bound on
the recursion depth; the wrapper passes more than the source ever consumes,
and fuel exhaustion yields the empty string. -/
def serNodeF : Nat → MathNode → SerializeOptions → String
  | 0, _, _ => ""
  | f + 1, n, options =>
    match n with
    | .number v => v
    | .symbol v => serializeSymbolV v
    | .operator v => serializeOperatorV v options
    | .text v => "\\text\x7b" ++ v ++ "\x7d"
    | .space sz => spaceCommandString sz
    | .placeholder => if options.includePlaceholders == false then "" else "\x7b\x7d"
    | .row cs => serListF f cs options
    | .fraction num den =>
      "\\frac\x7b" ++ serNodeF f num options ++ "\x7d\x7b" ++ serNodeF f den options ++ "\x7d"
    | .power b e =>
      let base := serBaseF f b options
      let exp := serNodeF f e options
      if needsBraces e then base ++ "^\x7b" ++ exp ++ "\x7d"
      else base ++ "^" ++ exp
    | .subscript b s =>
      let base := serBaseF f b options
      let sub := serNodeF f s options
      if needsBraces s then base ++ "_\x7b" ++ sub ++ "\x7d"
      else base ++ "_" ++ sub
    | .subsup b s e =>
      let base := serBaseF f b options
      let sub := serNodeF f s options
      let sup := serNodeF f e options
      let subPart := if needsBraces s then "_\x7b" ++ sub ++ "\x7d" else "_" ++ sub
      let supPart := if needsBraces e then "^\x7b" ++ sup ++ "\x7d" else "^" ++ sup
      base ++ subPart ++ supPart
    | .sqrt r none => "\\sqrt\x7b" ++ serNodeF f r options ++ "\x7d"
    | .sqrt r (some i) =>
      "\\sqrt[" ++ serNodeF f i options ++ "]\x7b" ++ serNodeF f r options ++ "\x7d"
    | .parens od cd content psize =>
      let c := serNodeF f content options
      if psize == some "auto" then
        "\\left" ++ serializeDelimiter od ++ c ++ "\\right" ++ serializeDelimiter cd
      else
        let o := if od == "\x7b" then "\\\x7b" else od
        let cl := if cd == "\x7d" then "\\\x7d" else cd
        o ++ c ++ cl
    | .func name arg lim =>
      let r0 := if SERIALIZER_FUNCTIONS.contains name then "\\" ++ name else name
      let r1 :=
        match lim with
        | none => r0
        | some (lo, hi) =>
          let rLo :=
            match lo with
            | none => r0
            | some l =>
              let lower := serNodeF f l options
              r0 ++ (if needsBraces l then "_\x7b" ++ lower ++ "\x7d" else "_" ++ lower)
          match hi with
          | none => rLo
          | some u =>
            let upper := serNodeF f u options
            rLo ++ (if needsBraces u then "^\x7b" ++ upper ++ "\x7d" else "^" ++ upper)
      match arg with
      | none => r1
      | some a =>
        let argStr := serNodeF f a options
        if strStartsWith argStr "\x7b" || strStartsWith argStr "(" || strStartsWith argStr "[" ||
            strStartsWith argStr "\\left" then r1 ++ argStr
        else if needsBraces a then r1 ++ "\x7b" ++ argStr ++ "\x7d"
        else r1 ++ " " ++ argStr
    | .matrix rows style colSpec =>
      let spec :=
        match colSpec with
        | some c => if style == "array" && c != "" then "\x7b" ++ c ++ "\x7d" else ""
        | none => ""
      "\\begin\x7b" ++ style ++ "\x7d" ++ spec ++ serRowsF f rows options ++
        "\\end\x7b" ++ style ++ "\x7d"

/-- serializeRow: children concatenated without separators. -/
def serListF : Nat → List MathNode → SerializeOptions → String
  | 0, _, _ => ""
  | _ + 1, [], _ => ""
  | f + 1, c :: cs, options => serNodeF f c options ++ serListF f cs options

/-- serializeBase: unwrap a single-child row holding a plain symbol or
number, and brace complex bases. -/
def serBaseF : Nat → MathNode → SerializeOptions → String
  | 0, _, _ => ""
  | f + 1, n, options =>
    let unwrapped : Option String :=
      match n with
      | .row [MathNode.symbol v] => some (serNodeF f (.symbol v) options)
      | .row [MathNode.number v] => some (serNodeF f (.number v) options)
      | _ => none
    match unwrapped with
    | some s => s
    | none =>
      let serialized := serNodeF f n options
      match n with
      | .row _ | .fraction _ _ | .power _ _ | .subscript _ _ | .subsup _ _ _ =>
        "\x7b" ++ serialized ++ "\x7d"
      | _ => serialized

/-- Matrix cells of one row joined by the cell separator. -/
def serCellsF : Nat → List MathNode → SerializeOptions → String
  | 0, _, _ => ""
  | _ + 1, [], _ => ""
  | f + 1, [c], options => serNodeF f c options
  | f + 1, c :: cs, options => serNodeF f c options ++ " & " ++ serCellsF f cs options

/-- Matrix rows joined by the row separator. -/
def serRowsF : Nat → List (List MathNode) → SerializeOptions → String
  | 0, _, _ => ""
  | _ + 1, [], _ => ""
  | f + 1, [r], options => serCellsF f r options
  | f + 1, r :: rs, options => serCellsF f r options ++ " \\\\ " ++ serRowsF f rs options

end

/-- serializeToLatex: the wrapper fuel strictly exceeds the source's
recursion depth, which is bounded by the number of nodes plus list cells. -/
def serializeToLatex (ast : MathNode) (options : SerializeOptions) : String :=
  serNodeF (3 * nodeSize ast + 8) ast options

/-! ## Cursor and path addressing (src/core/cursor.ts) -/

structure CursorPosition where
  path : List Nat
  offset : Nat
deriving DecidableEq

def cursor (path : List Nat) (offset : Nat) : CursorPosition := ⟨path, offset⟩

/-- getChildNodes: kind-specific child enumeration. -/
def getChildNodes : MathNode → List MathNode
  | .row cs => cs
  | .fraction a b => [a, b]
  | .power a b => [a, b]
  | .subscript a b => [a, b]
  | .subsup a b c => [a, b, c]
  | .sqrt r none => [r]
  | .sqrt r (some i) => [r, i]
  | .parens _ _ c _ => [c]
  | .func _ arg lim =>
    (match arg with | some a => [a] | none => []) ++
    (match lim with
     | some (lo, hi) =>
       (match lo with | some l => [l] | none => []) ++
       (match hi with | some u => [u] | none => [])
     | none => [])
  | .matrix rows _ _ => rows.flatten
  | _ => []

/-- getNodeAtPath: descend by child indices; out-of-range indices yield
`none`. -/
def getNodeAtPath : MathNode → List Nat → Option MathNode
  | n, [] => some n
  | n, i :: rest =>
    match (getChildNodes n).get? i with
    | some c => getNodeAtPath c rest
    | none => none

/-- parentPath: drop the last path component. -/
def parentPath (path : List Nat) : List Nat := path.dropLast

/-- indexInParent: last element of the path.  The source returns `-1` for
an empty path; its call sites only pass non-empty paths, so `0` stands in
for that sentinel. -/
def indexInParent (path : List Nat) : Nat := path.getLast?.getD 0

mutual

/-- hasDescendantRow: a node is or transitively contains a row.  The source
computes `children.some(hasDescendantRow)` over `getChildNodes`; the child
enumeration is inlined per kind here for structural recursion. -/
def hasDescendantRow : MathNode → Bool
  | .row _ => true
  | .fraction a b => hasDescendantRow a || hasDescendantRow b
  | .power a b => hasDescendantRow a || hasDescendantRow b
  | .subscript a b => hasDescendantRow a || hasDescendantRow b
  | .subsup a b c => hasDescendantRow a || hasDescendantRow b || hasDescendantRow c
  | .sqrt r none => hasDescendantRow r
  | .sqrt r (some i) => hasDescendantRow r || hasDescendantRow i
  | .parens _ _ c _ => hasDescendantRow c
  | .func _ arg lim => hasDescendantRowOpt arg || hasDescendantRowLimits lim
  | .matrix rows _ _ => hasDescendantRowRows rows
  | _ => false

def hasDescendantRowOpt : Option MathNode → Bool
  | none => false
  | some n => hasDescendantRow n

def hasDescendantRowLimits : Option (Option MathNode × Option MathNode) → Bool
  | none => false
  | some (lo, hi) => hasDescendantRowOpt lo || hasDescendantRowOpt hi

def hasDescendantRowList : List MathNode → Bool
  | [] => false
  | c :: cs => hasDescendantRow c || hasDescendantRowList cs

def hasDescendantRowRows : List (List MathNode) → Bool
  | [] => false
  | r :: rs => hasDescendantRowList r || hasDescendantRowRows rs

end

/-- Loop of compareCursors over the two paths: common components compare
first, then a strict-prefix situation compares the shorter cursor's offset
against the other path's next index, and equal paths compare offsets. -/
def comparePaths : List Nat → Nat → List Nat → Nat → Int
  | [], aoff, [], boff => if aoff < boff then -1 else if aoff > boff then 1 else 0
  | [], aoff, bi :: _, _ => if aoff ≤ bi then -1 else 1
  | ai :: _, _, [], boff => if boff ≤ ai then 1 else -1
  | ai :: arest, aoff, bi :: brest, boff =>
    if ai < bi then -1 else if ai > bi then 1 else comparePaths arest aoff brest boff

/-- compareCursors: document order on cursor positions; `-1`, `0`, `1`. -/
def compareCursors (a b : CursorPosition) : Int :=
  comparePaths a.path a.offset b.path b.offset

def cursorsEqual (a b : CursorPosition) : Bool := compareCursors a b == 0

/-- While-loop of coerceToRowCursor: walk the path upward until the parent
is a row, then sit just after the child the walk departed through. -/
def coerceWalk (root : MathNode) : Nat → List Nat → Option CursorPosition
  | _, [] => none
  | 0, _ :: _ => none
  | k + 1, currentPath =>
    let parentP := parentPath currentPath
    match getNodeAtPath root parentP with
    | some (.row _) => some ⟨parentP, indexInParent currentPath + 1⟩
    | _ => coerceWalk root k parentP

/-- Index of the last element satisfying a predicate, for the backward scan
of findLastFocusable. -/
def findLastIdxWhere (p : MathNode → Bool) (l : List MathNode) : Option Nat :=
  (l.reverse.findIdx? p).map (fun j => l.length - 1 - j)

mutual

/-- coerceToRowCursor: clamp the offset at a row, otherwise walk up to the
nearest row ancestor, falling back to a first-focusable search.  The fuel
covers the mutual coerce and focusable-search recursion, whose source form
can diverge on row-free trees; the wrappers pass tree-size fuel. -/
def coerceToRowCursorF (root : MathNode) : Nat → CursorPosition → CursorPosition
  | 0, pos => pos
  | f + 1, pos =>
    match getNodeAtPath root pos.path with
    | some (.row cs) => ⟨pos.path, min pos.offset cs.length⟩
    | _ =>
      match coerceWalk root pos.path.length pos.path with
      | some c => c
      | none =>
        match root with
        | .row _ => ⟨[], 0⟩
        | _ => findFirstFocusableF root f []

/-- findFirstFocusable: first row reachable from the base path.  The source
returns at the first child that is a row, or recurses into the first child
that transitively contains a row; since a row trivially contains a row,
that child is the first one satisfying hasDescendantRow. -/
def findFirstFocusableF (root : MathNode) : Nat → List Nat → CursorPosition
  | 0, basePath => ⟨basePath, 0⟩
  | f + 1, basePath =>
    let n := (getNodeAtPath root basePath).getD root
    match n with
    | .row _ => ⟨basePath, 0⟩
    | _ =>
      let children := getChildNodes n
      match children.findIdx? hasDescendantRow with
      | some i =>
        match children.get? i with
        | some (.row _) => ⟨basePath ++ [i], 0⟩
        | some _ => findFirstFocusableF root f (basePath ++ [i])
        | none => coerceToRowCursorF root f ⟨basePath, 0⟩
      | none => coerceToRowCursorF root f ⟨basePath, 0⟩

/-- findLastFocusable: last row reachable from the base path, entered at
its end. -/
def findLastFocusableF (root : MathNode) : Nat → List Nat → CursorPosition
  | 0, basePath => ⟨basePath, 0⟩
  | f + 1, basePath =>
    let n := (getNodeAtPath root basePath).getD root
    match n with
    | .row cs => ⟨basePath, cs.length⟩
    | _ =>
      let children := getChildNodes n
      match findLastIdxWhere hasDescendantRow children with
      | some i =>
        match children.get? i with
        | some (.row cs) => ⟨basePath ++ [i], cs.length⟩
        | some _ => findLastFocusableF root f (basePath ++ [i])
        | none => coerceToRowCursorF root f ⟨basePath, 0⟩
      | none => coerceToRowCursorF root f ⟨basePath, 0⟩

end

def coerceToRowCursor (root : MathNode) (pos : CursorPosition) : CursorPosition :=
  coerceToRowCursorF root (nodeSize root + 2) pos

def findFirstFocusable (root : MathNode) (basePath : List Nat) : CursorPosition :=
  findFirstFocusableF root (nodeSize root + 2) basePath

def findLastFocusable (root : MathNode) (basePath : List Nat) : CursorPosition :=
  findLastFocusableF root (nodeSize root + 2) basePath

/-! ## Selection (src/core/selection.ts) -/

structure Selection where
  anchor : CursorPosition
  focus : CursorPosition
deriving DecidableEq

def collapsedSelection (pos : CursorPosition) : Selection := ⟨pos, pos⟩

def isCollapsed (sel : Selection) : Bool := cursorsEqual sel.anchor sel.focus

def getStart (sel : Selection) : CursorPosition :=
  if compareCursors sel.anchor sel.focus ≤ 0 then sel.anchor else sel.focus

def getEnd (sel : Selection) : CursorPosition :=
  if compareCursors sel.anchor sel.focus ≥ 0 then sel.anchor else sel.focus

def extendTo (sel : Selection) (newFocus : CursorPosition) : Selection :=
  ⟨sel.anchor, newFocus⟩

/-! ## Editor state and history (src/core/model.ts) -/

structure EditorState where
  root : MathNode
  selection : Selection

structure History where
  past : List EditorState
  present : EditorState
  future : List EditorState

structure HistoryOptions where
  maxHistory : Nat
  merge : Bool

/-- createEmptyState: a single-placeholder row with the cursor at the root
row, offset 0. -/
def createEmptyState : EditorState :=
  ⟨.row [.placeholder], collapsedSelection ⟨[], 0⟩⟩

def createHistory (initial : EditorState) : History := ⟨[], initial, []⟩

def updateSelection (state : EditorState) (newSelection : Selection) : EditorState :=
  ⟨state.root, newSelection⟩

def updateState (_state : EditorState) (newRoot : MathNode) (newSelection : Selection) :
    EditorState :=
  ⟨newRoot, newSelection⟩

def DEFAULT_MAX_HISTORY : Nat := 100

/-- pushHistory: merge replaces the present, otherwise the present joins
the past (truncated from the oldest end); both branches clear the redo
stack. -/
def pushHistory (history : History) (newState : EditorState) (options : HistoryOptions) :
    History :=
  if options.merge && history.past.length > 0 then
    ⟨history.past, newState, []⟩
  else
    let newPast := history.past ++ [history.present]
    let newPast :=
      if newPast.length > options.maxHistory then
        newPast.drop (newPast.length - options.maxHistory)
      else newPast
    ⟨newPast, newState, []⟩

/-- undo: pop the newest past state into the present. -/
def undo (history : History) : History :=
  match history.past.getLast? with
  | none => history
  | some previous =>
    ⟨history.past.dropLast, previous, history.present :: history.future⟩

/-- redo: pop the front of the future into the present. -/
def redo (history : History) : History :=
  match history.future with
  | [] => history
  | next :: rest => ⟨history.past ++ [history.present], next, rest⟩

def canUndo (history : History) : Bool := history.past.length > 0

def canRedo (history : History) : Bool := history.future.length > 0

/-! ## Navigation commands (src/core/commands/navigate.ts, the subset the
claims exercise) -/

/-- isStructure of navigate.ts: container kinds the cursor can enter. -/
def isStructure : MathNode → Bool
  | .fraction _ _ => true
  | .power _ _ => true
  | .subscript _ _ => true
  | .subsup _ _ _ => true
  | .sqrt _ _ => true
  | .parens _ _ _ _ => true
  | .matrix _ _ _ => true
  | .func _ _ _ => true
  | _ => false

/-- exitNodeLeft: walk to the parent and sit just before the exited child;
matrix parents move to the previous cell first.  The fuel is the path
length, the measure of the source recursion. -/
def exitNodeLeftGo (root : MathNode) : Nat → List Nat → Option CursorPosition
  | _, [] => none
  | 0, _ :: _ => none
  | k + 1, path =>
    let parentP := parentPath path
    let childIdx := indexInParent path
    match getNodeAtPath root parentP with
    | none => none
    | some (.row _) => some (cursor parentP childIdx)
    | some (.matrix _ _ _) =>
      if childIdx > 0 then some (findLastFocusable root (parentP ++ [childIdx - 1]))
      else exitNodeLeftGo root k parentP
    | some _ => exitNodeLeftGo root k parentP

def exitNodeLeft (root : MathNode) (path : List Nat) : Option CursorPosition :=
  exitNodeLeftGo root path.length path

/-- exitNodeRight: walk to the parent and sit just after the exited child;
matrix parents move to the next cell first. -/
def exitNodeRightGo (root : MathNode) : Nat → List Nat → Option CursorPosition
  | _, [] => none
  | 0, _ :: _ => none
  | k + 1, path =>
    let parentP := parentPath path
    let childIdx := indexInParent path
    match getNodeAtPath root parentP with
    | none => none
    | some (.row _) => some (cursor parentP (childIdx + 1))
    | some (.matrix rows _ _) =>
      let cols0 := match rows.head? with | some r => r.length | none => 0
      let cols := if cols0 == 0 then 1 else cols0
      let totalCells := rows.length * cols
      if childIdx + 1 < totalCells then
        some (findFirstFocusable root (parentP ++ [childIdx + 1]))
      else exitNodeRightGo root k parentP
    | some _ => exitNodeRightGo root k parentP

def exitNodeRight (root : MathNode) (path : List Nat) : Option CursorPosition :=
  exitNodeRightGo root path.length path

/-- moveCursorLeft: step over a leaf, enter a structure at its last
focusable position, or exit the row at its start. -/
def moveCursorLeft (root : MathNode) (pos : CursorPosition) : Option CursorPosition :=
  match getNodeAtPath root pos.path with
  | some (.row children) =>
    if pos.offset > 0 then
      match children.get? (pos.offset - 1) with
      | some prevChild =>
        if isStructure prevChild && hasDescendantRow prevChild then
          some (findLastFocusable root (pos.path ++ [pos.offset - 1]))
        else some (cursor pos.path (pos.offset - 1))
      | none => some (cursor pos.path (pos.offset - 1))
    else exitNodeLeft root pos.path
  | _ => none

/-- moveCursorRight: mirror image of moveCursorLeft. -/
def moveCursorRight (root : MathNode) (pos : CursorPosition) : Option CursorPosition :=
  match getNodeAtPath root pos.path with
  | some (.row children) =>
    if pos.offset < children.length then
      match children.get? pos.offset with
      | some nextChild =>
        if isStructure nextChild && hasDescendantRow nextChild then
          some (findFirstFocusable root (pos.path ++ [pos.offset]))
        else some (cursor pos.path (pos.offset + 1))
      | none => some (cursor pos.path (pos.offset + 1))
    else exitNodeRight root pos.path
  | _ => none

/-- moveLeft command: collapse a selection to its start, or move the
focus. -/
def moveLeft (extend : Bool) (state : EditorState) : Option EditorState :=
  if !isCollapsed state.selection && !extend then
    some (updateSelection state (collapsedSelection (getStart state.selection)))
  else
    match moveCursorLeft state.root state.selection.focus with
    | none => none
    | some newPos =>
      let newSelection :=
        if extend then extendTo state.selection newPos else collapsedSelection newPos
      some (updateSelection state newSelection)

/-- moveRight command: collapse a selection to its end, or move the
focus. -/
def moveRight (extend : Bool) (state : EditorState) : Option EditorState :=
  if !isCollapsed state.selection && !extend then
    some (updateSelection state (collapsedSelection (getEnd state.selection)))
  else
    match moveCursorRight state.root state.selection.focus with
    | none => none
    | some newPos =>
      let newSelection :=
        if extend then extendTo state.selection newPos else collapsedSelection newPos
      some (updateSelection state newSelection)

def isPlaceholderNode : MathNode → Bool
  | .placeholder => true
  | _ => false

/-! ## Insert commands (src/core/commands/insert.ts, the subset the claims
exercise) -/

namespace Ins

/-- Shared loop of findCommonAncestorPath (insert.ts and delete.ts carry
identical copies). -/
def findCommonAncestorPath : List Nat → List Nat → List Nat
  | a :: xs, b :: ys => if a == b then a :: findCommonAncestorPath xs ys else []
  | _, _ => []

/-- List map carrying the element index, used for the matrix case of
insert.ts replaceChild. -/
def mapIdxFrom (f : Nat → MathNode → MathNode) (i : Nat) : List MathNode → List MathNode
  | [] => []
  | x :: xs => f i x :: mapIdxFrom f (i + 1) xs

def mapIdxRowsFrom (f : Nat → List MathNode → List MathNode) (i : Nat) :
    List (List MathNode) → List (List MathNode)
  | [] => []
  | x :: xs => f i x :: mapIdxRowsFrom f (i + 1) xs

/-- replaceChild of insert.ts, including its matrix case.  The row case's
`newChildren[index] = newChild` is in-bounds at every call site and is
rendered as `List.set`. -/
def replaceChild (parent : MathNode) (index : Nat) (newChild : MathNode) : MathNode :=
  match parent with
  | .row cs => .row (cs.set index newChild)
  | .fraction num den =>
    if index == 0 then .fraction newChild den else .fraction num newChild
  | .power b e => if index == 0 then .power newChild e else .power b newChild
  | .subscript b s => if index == 0 then .subscript newChild s else .subscript b newChild
  | .subsup b s e =>
    if index == 0 then .subsup newChild s e
    else if index == 1 then .subsup b newChild e
    else .subsup b s newChild
  | .sqrt r i => if index == 0 then .sqrt newChild i else .sqrt r (some newChild)
  | .parens od cd _ psize => .parens od cd newChild psize
  | .matrix rows style colSpec =>
    let cols0 := match rows.head? with | some r => r.length | none => 0
    let cols := if cols0 == 0 then 1 else cols0
    let rowIdx := index / cols
    let colIdx := index % cols
    let newRows := mapIdxRowsFrom
      (fun r rowCells =>
        if r == rowIdx then
          mapIdxFrom (fun c cell => if c == colIdx then newChild else cell) 0 rowCells
        else rowCells) 0 rows
    .matrix newRows style colSpec
  | _ => parent

/-- Bottom-up loop of replaceNodeAtPath; the fuel is the path length, the
measure of the source recursion on parent paths. -/
def replaceGo (root : MathNode) : Nat → List Nat → MathNode → MathNode
  | _, [], newNode => newNode
  | 0, _ :: _, _ => root
  | k + 1, path, newNode =>
    let parentP := parentPath path
    let childIdx := indexInParent path
    match getNodeAtPath root parentP with
    | none => root
    | some parent => replaceGo root k parentP (replaceChild parent childIdx newNode)

def replaceNodeAtPath (root : MathNode) (path : List Nat) (newNode : MathNode) : MathNode :=
  replaceGo root path.length path newNode

/-- While-loop of findContainingRow walking up to the nearest row
ancestor. -/
def fcrWalk (root : MathNode) : Nat → List Nat → Option (List Nat × Nat)
  | _, [] => none
  | 0, _ :: _ => none
  | k + 1, currentPath =>
    let parentP := parentPath currentPath
    match getNodeAtPath root parentP with
    | some (.row _) => some (parentP, indexInParent currentPath)
    | _ => fcrWalk root k parentP

/-- findContainingRow: the nearest ancestor row and the index within it;
at a row the cursor's own path and offset are returned. -/
def findContainingRow (root : MathNode) (pos : CursorPosition) :
    Option (List Nat × Nat) :=
  match getNodeAtPath root pos.path with
  | none => none
  | some (.row _) => some (pos.path, pos.offset)
  | some _ =>
    match fcrWalk root pos.path.length pos.path with
    | some (parentP, idx) => some (parentP, idx + (if pos.offset > 0 then 1 else 0))
    | none =>
      match root with
      | .row _ => some ([], 0)
      | _ => none

/-- insertNodeAtPosition: replace a lone placeholder, otherwise splice at
the offset. -/
def insertNodeAtPosition (root : MathNode) (pos : CursorPosition) (newNode : MathNode) :
    Option (MathNode × CursorPosition) :=
  match getNodeAtPath root pos.path with
  | some (.row children) =>
    match children with
    | [c] =>
      if isPlaceholderNode c then
        some (replaceNodeAtPath root pos.path (.row [newNode]), cursor pos.path 1)
      else
        let newChildren := children.take pos.offset ++ [newNode] ++ children.drop pos.offset
        some (replaceNodeAtPath root pos.path (.row newChildren), cursor pos.path (pos.offset + 1))
    | _ =>
      let newChildren := children.take pos.offset ++ [newNode] ++ children.drop pos.offset
      some (replaceNodeAtPath root pos.path (.row newChildren), cursor pos.path (pos.offset + 1))
  | _ => none

/-- deleteSelectionContent: remove the selected range before an insertion;
total, collapsing to the start on the cases the source only falls back
on. -/
def deleteSelectionContent (root : MathNode) (selection : Selection) :
    MathNode × CursorPosition :=
  if isCollapsed selection then (root, selection.focus)
  else
    let s := getStart selection
    let e := getEnd selection
    if s.path == e.path then
      match getNodeAtPath root s.path with
      | some (.row children) =>
        let newChildren := children.take s.offset ++ children.drop e.offset
        let finalChildren := if newChildren.isEmpty then [MathNode.placeholder] else newChildren
        (replaceNodeAtPath root s.path (.row finalChildren), s)
      | _ => (root, s)
    else
      let commonPath := findCommonAncestorPath s.path e.path
      match getNodeAtPath root commonPath with
      | some (.row children) =>
        let startIdx :=
          if s.path.length > commonPath.length then s.path.getD commonPath.length 0
          else s.offset
        let endIdx :=
          if e.path.length > commonPath.length then e.path.getD commonPath.length 0 + 1
          else e.offset
        let newChildren := children.take startIdx ++ children.drop endIdx
        let finalChildren := if newChildren.isEmpty then [MathNode.placeholder] else newChildren
        (replaceNodeAtPath root commonPath (.row finalChildren), cursor commonPath startIdx)
      | _ => (root, s)

/-- Single-character regex test such as `/^[0-9]$/`. -/
def isSingleMatch (p : Char → Bool) (s : String) : Bool :=
  match s.data with
  | [c] => p c
  | _ => false

/-- Operator characters of insertCharacter's `/^[+\-=<>*\/!',.:;]$/`. -/
def isInsertOperatorChar (c : Char) : Bool :=
  c == '+' || c == '-' || c == '=' || c == '<' || c == '>' || c == '*' || c == '/' ||
  c == '!' || c == '\'' || c == ',' || c == '.' || c == ':' || c == ';'

/-- Node classification of insertCharacter. -/
def classifyInsertChar (char : String) : MathNode :=
  if isSingleMatch Char.isDigit char then .number char
  else if isSingleMatch isLetterChar char then .symbol char
  else if isSingleMatch isInsertOperatorChar char then .operator char
  else .symbol char

/-- insertCharacter command. -/
def insertCharacter (char : String) (state : EditorState) : Option EditorState :=
  let clean := deleteSelectionContent state.root state.selection
  let newNode := classifyInsertChar char
  match insertNodeAtPosition clean.1 clean.2 newNode with
  | none => none
  | some (newRoot, newPos) =>
    some (updateState state newRoot (collapsedSelection newPos))

/-- insertOperator command; a leading backslash is stripped. -/
def insertOperator (op : String) (state : EditorState) : Option EditorState :=
  let normalizedOp := if strStartsWith op "\\" then op.drop 1 else op
  let clean := deleteSelectionContent state.root state.selection
  match insertNodeAtPosition clean.1 clean.2 (.operator normalizedOp) with
  | none => none
  | some (newRoot, newPos) =>
    some (updateState state newRoot (collapsedSelection newPos))

/-- insertSuperscript command: wrap the element left of the cursor as the
base of a power node whose exponent is a placeholder row, and enter that
exponent. -/
def insertSuperscript (state : EditorState) : Option EditorState :=
  let pos := state.selection.focus
  match findContainingRow state.root pos with
  | none => none
  | some (rowPath, offset) =>
    match getNodeAtPath state.root rowPath with
    | some (.row children) =>
      let childIdx := if offset > 0 then offset - 1 else 0
      if childIdx ≥ children.length then none
      else
        match children.get? childIdx with
        | some base =>
          let pw := MathNode.power base (.row [.placeholder])
          let newChildren := children.take childIdx ++ [pw] ++ children.drop (childIdx + 1)
          let newRoot := replaceNodeAtPath state.root rowPath (.row newChildren)
          some (updateState state newRoot
            (collapsedSelection (cursor (rowPath ++ [childIdx, 1]) 0)))
        | none => none
    | _ => none

end Ins

/-! ## Delete commands (src/core/commands/delete.ts) -/

/-- Direction argument of deleteAtPosition. -/
inductive DelDir where
  | backward
  | forward
deriving DecidableEq

namespace Del

/-- isStructuredNode of delete.ts; note it includes matrices but not
function nodes. -/
def isStructuredNode : MathNode → Bool
  | .fraction _ _ => true
  | .power _ _ => true
  | .subscript _ _ => true
  | .subsup _ _ _ => true
  | .sqrt _ _ => true
  | .parens _ _ _ _ => true
  | .matrix _ _ _ => true
  | _ => false

/-- getMainContent: the slot kept when a structure is flattened. -/
def getMainContent : MathNode → Option MathNode
  | .fraction num _ => some num
  | .power b _ => some b
  | .subscript b _ => some b
  | .subsup b _ _ => some b
  | .sqrt r _ => some r
  | .parens _ _ c _ => some c
  | _ => none

/-- replaceChild of delete.ts; unlike the insert-side copy it has no matrix
case, so matrix parents are returned unchanged.  The row case's in-place
index assignment is in-bounds at every call site and is rendered as
`List.set`. -/
def replaceChild (parent : MathNode) (index : Nat) (newChild : MathNode) : MathNode :=
  match parent with
  | .row cs => .row (cs.set index newChild)
  | .fraction num den =>
    if index == 0 then .fraction newChild den else .fraction num newChild
  | .power b e => if index == 0 then .power newChild e else .power b newChild
  | .subscript b s => if index == 0 then .subscript newChild s else .subscript b newChild
  | .subsup b s e =>
    if index == 0 then .subsup newChild s e
    else if index == 1 then .subsup b newChild e
    else .subsup b s newChild
  | .sqrt r i => if index == 0 then .sqrt newChild i else .sqrt r (some newChild)
  | .parens od cd _ psize => .parens od cd newChild psize
  | _ => parent

/-- Bottom-up loop of delete.ts replaceNodeAtPath; fuel is the path
length. -/
def replaceGo (root : MathNode) : Nat → List Nat → MathNode → MathNode
  | _, [], newNode => newNode
  | 0, _ :: _, _ => root
  | k + 1, path, newNode =>
    let parentP := parentPath path
    let childIdx := indexInParent path
    match getNodeAtPath root parentP with
    | none => root
    | some parent => replaceGo root k parentP (replaceChild parent childIdx newNode)

def replaceNodeAtPath (root : MathNode) (path : List Nat) (newNode : MathNode) : MathNode :=
  replaceGo root path.length path newNode

def findCommonAncestorPath : List Nat → List Nat → List Nat
  | a :: xs, b :: ys => if a == b then a :: findCommonAncestorPath xs ys else []
  | _, _ => []

/-- flattenStructureBackward: replace a structure by the children of its
main-content slot, spliced into the row. -/
def flattenStructureBackward (root : MathNode) (rowPath : List Nat) (targetIdx : Nat)
    (struct : MathNode) : Option (MathNode × CursorPosition) :=
  match getNodeAtPath root rowPath with
  | some (.row children) =>
    match getMainContent struct with
    | none => none
    | some mainContent =>
      let contentNodes := match mainContent with | .row cs => cs | m => [m]
      let newChildren :=
        children.take targetIdx ++ contentNodes ++ children.drop (targetIdx + 1)
      some (replaceNodeAtPath root rowPath (.row newChildren), cursor rowPath targetIdx)
  | _ => none

/-- flattenStructureForward: same as backward in the source. -/
def flattenStructureForward (root : MathNode) (rowPath : List Nat) (targetIdx : Nat)
    (struct : MathNode) : Option (MathNode × CursorPosition) :=
  flattenStructureBackward root rowPath targetIdx struct

/-- deleteContainingStructure: remove the structure whose slot holds the
addressed placeholder, leaving a fresh placeholder in the parent row and
the cursor at it. -/
def deleteContainingStructure (root : MathNode) (placeholderPath : List Nat) :
    Option (MathNode × CursorPosition) :=
  if placeholderPath.length < 2 then none
  else
    let structPath := parentPath placeholderPath
    match getNodeAtPath root structPath with
    | none => none
    | some struct =>
      if !isStructuredNode struct then none
      else
        let rowPath := parentPath structPath
        match getNodeAtPath root rowPath with
        | some (.row children) =>
          let structIdx := indexInParent structPath
          let newChildren := children.set structIdx MathNode.placeholder
          some (replaceNodeAtPath root rowPath (.row newChildren),
            cursor (rowPath ++ [structIdx]) 0)
        | _ => none

/-- deleteAtPosition: collapsed-cursor deletion.  The source would fault on
a cursor offset outside the row; those unreachable accesses are rendered as
inapplicable. -/
def deleteAtPosition (root : MathNode) (pos : CursorPosition) (direction : DelDir) :
    Option (MathNode × CursorPosition) :=
  match getNodeAtPath root pos.path with
  | none => none
  | some (.row children) =>
    match direction with
    | .backward =>
      if pos.offset == 0 then
        if pos.path.length > 0 then none
        else
          let loneP : Bool :=
            match children with
            | [c] => isPlaceholderNode c
            | _ => false
          if children.length > 0 && !loneP then
            match children.head? with
            | some targetChild =>
              if isStructuredNode targetChild then
                flattenStructureForward root pos.path 0 targetChild
              else
                let newChildren := children.drop 1
                let finalChildren :=
                  if newChildren.isEmpty then [MathNode.placeholder] else newChildren
                some (replaceNodeAtPath root pos.path (.row finalChildren),
                  cursor pos.path 0)
            | none => none
          else none
      else
        let targetIdx := pos.offset - 1
        match children.get? targetIdx with
        | none => none
        | some targetChild =>
          if isStructuredNode targetChild then
            flattenStructureBackward root pos.path targetIdx targetChild
          else
            let newChildren := children.take targetIdx ++ children.drop (targetIdx + 1)
            let finalChildren :=
              if newChildren.isEmpty then [MathNode.placeholder] else newChildren
            some (replaceNodeAtPath root pos.path (.row finalChildren),
              cursor pos.path (max 0 targetIdx))
    | .forward =>
      if pos.offset ≥ children.length then none
      else
        let targetIdx := pos.offset
        match children.get? targetIdx with
        | none => none
        | some targetChild =>
          if isStructuredNode targetChild then
            flattenStructureForward root pos.path targetIdx targetChild
          else
            let newChildren := children.take targetIdx ++ children.drop (targetIdx + 1)
            let finalChildren :=
              if newChildren.isEmpty then [MathNode.placeholder] else newChildren
            some (replaceNodeAtPath root pos.path (.row finalChildren),
              cursor pos.path targetIdx)
  | some .placeholder => deleteContainingStructure root pos.path
  | some _ => none

/-- While-loop of deleteRange walking from the common ancestor up to the
nearest row. -/
def rangeWalk (root : MathNode) : Nat → List Nat → List Nat × Option MathNode
  | 0, p => (p, getNodeAtPath root p)
  | k + 1, p =>
    match getNodeAtPath root p with
    | some (.row cs) => (p, some (.row cs))
    | some _ => rangeWalk root k (parentPath p)
    | none => (p, none)

/-- deleteRange: remove a selection's range; same-row selections slice
between the offsets, cross-structure selections slice the nearest common
row ancestor with clamped indices. -/
def deleteRange (root : MathNode) (selection : Selection) :
    Option (MathNode × CursorPosition) :=
  let s := getStart selection
  let e := getEnd selection
  if s.path == e.path then
    match getNodeAtPath root s.path with
    | some (.row children) =>
      let newChildren := children.take s.offset ++ children.drop e.offset
      let finalChildren := if newChildren.isEmpty then [MathNode.placeholder] else newChildren
      some (replaceNodeAtPath root s.path (.row finalChildren), s)
    | _ => none
  else
    let commonPath := findCommonAncestorPath s.path e.path
    match rangeWalk root commonPath.length commonPath with
    | (rowPath, some (.row children)) =>
      let startIdx0 :=
        if s.path.length > rowPath.length then s.path.getD rowPath.length 0
        else if s.path.length == rowPath.length then s.offset
        else 0
      let endIdx0 :=
        if e.path.length > rowPath.length then e.path.getD rowPath.length 0 + 1
        else if e.path.length == rowPath.length then e.offset
        else children.length
      let startIdx := min startIdx0 children.length
      let endIdx := max startIdx (min endIdx0 children.length)
      let newChildren := children.take startIdx ++ children.drop endIdx
      let finalChildren := if newChildren.isEmpty then [MathNode.placeholder] else newChildren
      some (replaceNodeAtPath root rowPath (.row finalChildren), cursor rowPath startIdx)
    | _ => some (root, s)

/-- deleteSelection command. -/
def deleteSelection (state : EditorState) : Option EditorState :=
  if isCollapsed state.selection then none
  else
    match deleteRange state.root state.selection with
    | none => none
    | some (newRoot, newPos) =>
      some (updateState state newRoot (collapsedSelection newPos))

/-- deleteBackward command with its move-left fallback. -/
def deleteBackward (state : EditorState) : Option EditorState :=
  if !isCollapsed state.selection then deleteSelection state
  else
    match deleteAtPosition state.root state.selection.focus .backward with
    | none => moveLeft false state
    | some (newRoot, newPos) =>
      some (updateState state newRoot (collapsedSelection newPos))

/-- deleteForward command. -/
def deleteForward (state : EditorState) : Option EditorState :=
  if !isCollapsed state.selection then deleteSelection state
  else
    match deleteAtPosition state.root state.selection.focus .forward with
    | none => none
    | some (newRoot, newPos) =>
      some (updateState state newRoot (collapsedSelection newPos))

end Del

/-! ## Invariant predicates and delete-command sequences -/

mutual

/-- Never-empty-row invariant: every row in the subtree has at least one
child. -/
def nonEmptyRows : MathNode → Bool
  | .row cs => !cs.isEmpty && nonEmptyRowsList cs
  | .fraction a b => nonEmptyRows a && nonEmptyRows b
  | .power a b => nonEmptyRows a && nonEmptyRows b
  | .subscript a b => nonEmptyRows a && nonEmptyRows b
  | .subsup a b c => nonEmptyRows a && nonEmptyRows b && nonEmptyRows c
  | .sqrt r none => nonEmptyRows r
  | .sqrt r (some i) => nonEmptyRows r && nonEmptyRows i
  | .parens _ _ c _ => nonEmptyRows c
  | .func _ arg lim => nonEmptyRowsOpt arg && nonEmptyRowsLimits lim
  | .matrix rows _ _ => nonEmptyRowsRows rows
  | _ => true

def nonEmptyRowsOpt : Option MathNode → Bool
  | none => true
  | some n => nonEmptyRows n

def nonEmptyRowsLimits : Option (Option MathNode × Option MathNode) → Bool
  | none => true
  | some (lo, hi) => nonEmptyRowsOpt lo && nonEmptyRowsOpt hi

def nonEmptyRowsList : List MathNode → Bool
  | [] => true
  | c :: cs => nonEmptyRows c && nonEmptyRowsList cs

def nonEmptyRowsRows : List (List MathNode) → Bool
  | [] => true
  | r :: rs => nonEmptyRowsList r && nonEmptyRowsRows rs

end

def isRowNode : MathNode → Bool
  | .row _ => true
  | _ => false

mutual

/-- Editor normalization of structure slots (normalizeForEditor): every
cursor-editable slot is a row. -/
def slotsNormalized : MathNode → Bool
  | .row cs => slotsNormalizedList cs
  | .fraction a b => isRowNode a && slotsNormalized a && isRowNode b && slotsNormalized b
  | .power a b => slotsNormalized a && isRowNode b && slotsNormalized b
  | .subscript a b => slotsNormalized a && isRowNode b && slotsNormalized b
  | .subsup a b c =>
    slotsNormalized a && isRowNode b && slotsNormalized b && isRowNode c && slotsNormalized c
  | .sqrt r none => isRowNode r && slotsNormalized r
  | .sqrt r (some i) => isRowNode r && slotsNormalized r && isRowNode i && slotsNormalized i
  | .parens _ _ c _ => isRowNode c && slotsNormalized c
  | .func _ arg lim => slotsNormalizedOpt arg && slotsNormalizedLimits lim
  | .matrix rows _ _ => slotsNormalizedRows rows
  | _ => true

def slotsNormalizedOpt : Option MathNode → Bool
  | none => true
  | some n => isRowNode n && slotsNormalized n

def slotsNormalizedLimits : Option (Option MathNode × Option MathNode) → Bool
  | none => true
  | some (lo, hi) => slotsNormalizedOpt lo && slotsNormalizedOpt hi

def slotsNormalizedList : List MathNode → Bool
  | [] => true
  | c :: cs => slotsNormalized c && slotsNormalizedList cs

def slotsNormalizedRows : List (List MathNode) → Bool
  | [] => true
  | r :: rs => slotsNormalizedCells r && slotsNormalizedRows rs

def slotsNormalizedCells : List MathNode → Bool
  | [] => true
  | c :: cs => isRowNode c && slotsNormalized c && slotsNormalizedCells cs

end

/-- A delete command, as the claims quantify over delete sequences. -/
inductive DeleteOp where
  | backward
  | forward
  | selection

/-- Apply a delete command with the host convention that an inapplicable
command (null result) leaves the state unchanged. -/
def applyDeleteOp (op : DeleteOp) (s : EditorState) : EditorState :=
  let r :=
    match op with
    | .backward => Del.deleteBackward s
    | .forward => Del.deleteForward s
    | .selection => Del.deleteSelection s
  r.getD s

def runDeleteOps : List DeleteOp → EditorState → EditorState
  | [], s => s
  | op :: ops, s => runDeleteOps ops (applyDeleteOp op s)

/-- The lone-placeholder test of deleteAtPosition, named for reuse in
proofs: true when a row's children are exactly one placeholder. -/
def lonePlaceholder (children : List MathNode) : Bool :=
  match children with
  | [c0] => isPlaceholderNode c0
  | _ => false

/-- Kinds that delete.ts replaceChild actually rewrites; a path through
these kinds is faithfully replaced by replaceNodeAtPath. -/
def replaceableKind : MathNode → Bool
  | .row _ => true
  | .fraction _ _ => true
  | .power _ _ => true
  | .subscript _ _ => true
  | .subsup _ _ _ => true
  | .sqrt _ _ => true
  | .parens _ _ _ _ => true
  | _ => false

/-- A path every step of which passes through a replaceable kind at an
in-bounds child index. -/
def settablePath : MathNode → List Nat → Bool
  | _, [] => true
  | n, i :: rest =>
    replaceableKind n &&
      (match (getChildNodes n).get? i with
       | some c => settablePath c rest
       | none => false)

/-- Round-trip check of the spec's law: parse, serialize with default
options, re-parse, and compare ASTs with nodesEqual. -/
def astRoundTrips (s : String) : Bool :=
  match parseLatex s with
  | .ok t =>
    match parseLatex (serializeToLatex t ⟨false, true⟩) with
    | .ok t2 => nodesEqual t t2
    | .error _ => false
  | .error _ => false

/-- End-to-end scenario of the spec: from the empty state, insert x, enter
a superscript, insert 2, exit right, insert =, insert y. -/
def c5ScenarioState : Option EditorState :=
  (Ins.insertCharacter "x" createEmptyState).bind fun s1 =>
  (Ins.insertSuperscript s1).bind fun s2 =>
  (Ins.insertCharacter "2" s2).bind fun s3 =>
  (moveRight false s3).bind fun s4 =>
  (Ins.insertOperator "=" s4).bind fun s5 =>
  Ins.insertCharacter "y" s5

/-- Serialization of the scenario result with placeholders excluded. -/
def c5Serialized : String :=
  match c5ScenarioState with
  | some s => serializeToLatex s.root ⟨false, false⟩
  | none => ""

/-- A fraction whose numerator slot is a lone placeholder, sitting inside
a 1x1 matrix cell: the parent row of the enclosing structure is a matrix
cell, a kind the delete-side replaceChild does not rewrite. -/
def c8CexRoot : MathNode :=
  .row [.matrix [[.row [.fraction .placeholder (.number "2")]]] "matrix" none]

/-! ## Helper lemmas -/

theorem singleton_data (c : Char) : (String.singleton c).data = [c] := rfl

theorem ne_empty_of_data_ne (s : String) (h : s.data ≠ []) : s ≠ "" :=
  fun he => h (by rw [he])

theorem concatValues_cons (t : Token) (ts : List Token) :
    concatValues (t :: ts) = t.value ++ concatValues ts := rfl

theorem concatValues_data (ts : List Token) :
    (concatValues ts).data = ts.foldr (fun t acc => t.value.data ++ acc) [] := by
  induction ts with
  | nil => rfl
  | cons t ts ih => simp only [concatValues_cons, String.data_append, ih, List.foldr_cons]

/-- Consumption property of readCommand, whose input follows the consumed
backslash. -/
theorem readCommand_spec (rest : List Char) (posn : Nat) :
    (readCommand rest posn).1.value.data ++ (readCommand rest posn).2.1 = '\\' :: rest ∧
    (readCommand rest posn).2.1.length ≤ rest.length ∧
    (readCommand rest posn).1.value.data ≠ [] ∧
    (readCommand rest posn).1.type ≠ .eof := by
  cases rest with
  | nil =>
    refine ⟨?_, Nat.le_refl _, ?_, ?_⟩
    · show ("\\" : String).data ++ ([] : List Char) = ['\\']
      decide
    · show ("\\" : String).data ≠ []
      decide
    · show TokenType.command ≠ TokenType.eof
      decide
  | cons d rest2 =>
    by_cases hd : (d == '\\') = true
    · have hdd : d = '\\' := eq_of_beq hd
      subst hdd
      simp only [readCommand, hd, if_true]
      refine ⟨?_, by simp, ?_, by simp⟩
      · show ("\\\\" : String).data ++ rest2 = '\\' :: '\\' :: rest2
        have hv : ("\\\\" : String).data = ['\\', '\\'] := by decide
        rw [hv]
        rfl
      · show ("\\\\" : String).data ≠ []
        decide
    · by_cases hl : isLetterChar d = true
      · have hnl : ¬((!isLetterChar d) = true) := by simp [hl]
        simp only [readCommand, if_neg hd, if_neg hnl]
        refine ⟨?_, ?_, ?_, by simp⟩
        · rw [String.data_append]
          have hv : ("\\" : String).data = ['\\'] := by decide
          rw [hv]
          show ('\\' :: ((d :: rest2).takeWhile isLetterChar)) ++
            ((d :: rest2).dropWhile isLetterChar) = _
          rw [List.cons_append, List.takeWhile_append_dropWhile]
        · rw [List.dropWhile_cons_of_pos hl]
          exact Nat.le_trans (List.dropWhile_sublist _).length_le (Nat.le_succ _)
        · rw [String.data_append]
          simp
      · have hnl : (!isLetterChar d) = true := by
          simp only [Bool.not_eq_true'] at *
          simp [hl]
        simp only [readCommand, if_neg hd, if_pos hnl]
        exact ⟨rfl, by simp, by simp, by simp⟩

/-- Consumption property of nextToken: the produced token's characters
followed by the remaining input reconstitute the consumed input, at least
one character is consumed, and the token is a non-empty non-eof token. -/
theorem nextToken_spec (c : Char) (rest : List Char) (posn : Nat) :
    (nextToken c rest posn).1.value.data ++ (nextToken c rest posn).2.1 = c :: rest ∧
    (nextToken c rest posn).2.1.length ≤ rest.length ∧
    (nextToken c rest posn).1.value.data ≠ [] ∧
    (nextToken c rest posn).1.type ≠ .eof := by
  by_cases hs : isSpaceChar c = true
  · have hred : nextToken c rest posn = readWhitespace (c :: rest) posn := by
      unfold nextToken; rw [if_pos hs]
    rw [hred]
    simp only [readWhitespace]
    refine ⟨List.takeWhile_append_dropWhile _ _, ?_, ?_, by decide⟩
    · rw [List.dropWhile_cons_of_pos hs]
      exact (List.dropWhile_sublist _).length_le
    · rw [List.takeWhile_cons_of_pos hs]
      simp
  · by_cases hb : (c == '\\') = true
    · have hc : c = '\\' := eq_of_beq hb
      have hred : nextToken c rest posn = readCommand rest posn := by
        unfold nextToken; rw [if_neg hs, if_pos hb]
      rw [hred, hc]
      exact readCommand_spec rest posn
    · by_cases hdg : c.isDigit = true
      · have hred : nextToken c rest posn = readNumber (c :: rest) posn := by
          unfold nextToken; rw [if_neg hs, if_neg hb, if_pos hdg]
        rw [hred]
        simp only [readNumber]
        have hnum : isNumberChar c = true := by simp [isNumberChar, hdg]
        refine ⟨List.takeWhile_append_dropWhile _ _, ?_, ?_, by decide⟩
        · rw [List.dropWhile_cons_of_pos hnum]
          exact (List.dropWhile_sublist _).length_le
        · rw [List.takeWhile_cons_of_pos hnum]
          simp
      · unfold nextToken
        rw [if_neg hs, if_neg hb, if_neg hdg]
        split <;>
          first
            | exact ⟨rfl, Nat.le_refl _, by simp [singleton_data], by simp⟩
            | (split <;> exact ⟨rfl, Nat.le_refl _, by simp [singleton_data], by simp⟩)

/-- Main loop property of the tokenizer: with fuel at least the input
length, the produced tokens partition the input and are all non-empty
non-eof tokens. -/
theorem tokenizeAux_spec :
    ∀ (fuel : Nat) (cs : List Char) (posn : Nat), cs.length ≤ fuel →
      (tokenizeAux fuel cs posn).foldr (fun t acc => t.value.data ++ acc) [] = cs ∧
      ∀ t ∈ tokenizeAux fuel cs posn, t.value ≠ "" ∧ t.type ≠ .eof := by
  intro fuel
  induction fuel with
  | zero =>
    intro cs posn h
    have hnil : cs = [] := List.eq_nil_of_length_eq_zero (Nat.le_zero.mp h)
    subst hnil
    exact ⟨rfl, by intro t ht; cases ht⟩
  | succ f ih =>
    intro cs posn h
    match cs with
    | [] => exact ⟨rfl, by intro t ht; cases ht⟩
    | c :: rest =>
      have hn := nextToken_spec c rest posn
      have hlen : (nextToken c rest posn).2.1.length ≤ f := by
        have h1 := hn.2.1
        have h2 : rest.length + 1 ≤ f + 1 := h
        omega
      have hrec := ih (nextToken c rest posn).2.1 (nextToken c rest posn).2.2 hlen
      have hunf : tokenizeAux (f + 1) (c :: rest) posn =
          (nextToken c rest posn).1 :: tokenizeAux f (nextToken c rest posn).2.1
            (nextToken c rest posn).2.2 := rfl
      constructor
      · rw [hunf, List.foldr_cons, hrec.1, hn.1]
      · intro t ht
        rw [hunf] at ht
        rcases List.mem_cons.mp ht with h1 | h2
        · subst h1
          exact ⟨ne_empty_of_data_ne _ hn.2.2.1, hn.2.2.2⟩
        · exact hrec.2 t h2

/-- C6: tokenize is total — the definition is a terminating function and
never fails — every input character belongs to exactly one token (the token
values concatenate back to the input and every non-eof token is non-empty),
and the token list ends with the end-of-input token. -/
theorem tokenize_total :
    ∀ s : String,
      (tokenize s).getLast? = some ⟨TokenType.eof, "", s.length⟩ ∧
      concatValues (tokenize s) = s ∧
      ∀ t ∈ tokenize s, t.type ≠ TokenType.eof → t.value ≠ "" := by
  intro s
  have hmain := tokenizeAux_spec s.length s.data 0 (Nat.le_refl _)
  refine ⟨?_, ?_, ?_⟩
  · exact List.getLast?_concat _
  · apply String.ext
    rw [concatValues_data]
    show (tokenizeAux s.length s.data 0 ++ [Token.mk TokenType.eof "" s.length]).foldr
      (fun (t : Token) acc => t.value.data ++ acc) [] = s.data
    rw [List.foldr_append]
    show (tokenizeAux s.length s.data 0).foldr
      (fun (t : Token) acc => t.value.data ++ acc) [] = s.data
    exact hmain.1
  · intro t ht hne
    rcases List.mem_append.mp ht with h1 | h2
    · exact (hmain.2 t h1).1
    · have heq : t = ⟨TokenType.eof, "", s.length⟩ := by simpa using h2
      rw [heq] at hne
      exact absurd rfl hne

/-- C7: row simplification of the parser — the empty and whitespace-only
inputs parse to a placeholder, a single atom parses to itself with no row
wrapper (parse "x" has kind symbol), and the simplification rule maps zero
children to a placeholder, a single child to itself, and two or more
children to a row. -/
theorem parser_row_simplification :
    parseLatex "" = Except.ok MathNode.placeholder ∧
    parseLatex "   " = Except.ok MathNode.placeholder ∧
    parseLatex "x" = Except.ok (MathNode.symbol "x") ∧
    parseLatex "x+y" = Except.ok (MathNode.row
      [.symbol "x", .operator "+", .symbol "y"]) ∧
    simplifyRow [] = MathNode.placeholder ∧
    (∀ c : MathNode, simplifyRow [c] = c) ∧
    (∀ (c d : MathNode) (cs : List MathNode),
      simplifyRow (c :: d :: cs) = MathNode.row (c :: d :: cs)) :=
  ⟨rfl, rfl, rfl, rfl, rfl, fun _ => rfl, fun _ _ _ => rfl⟩

/-- C1 counterexample: the round-trip law fails on the syntactically valid
input "\alpha x" — the Greek symbol serializes with no separating space, so
re-parsing reads a single unknown command "alphax" and yields a symbol node
that is not AST-equal to the original row. -/
theorem roundtrip_counterexample :
    parseLatex "\\alpha x" = Except.ok (MathNode.row [.symbol "alpha", .symbol "x"]) ∧
    serializeToLatex (MathNode.row [.symbol "alpha", .symbol "x"]) ⟨false, true⟩ =
      "\\alphax" ∧
    parseLatex "\\alphax" = Except.ok (MathNode.symbol "alphax") ∧
    nodesEqual (MathNode.row [.symbol "alpha", .symbol "x"]) (MathNode.symbol "alphax") =
      false ∧
    astRoundTrips "\\alpha x" = false :=
  ⟨rfl, rfl, rfl, rfl, rfl⟩

/-- C1 amended: the round-trip law parse∘serialize∘parse AST-equal to parse
holds on the spec's concrete examples, but not for every syntactically
valid input (see the counterexample). -/
theorem roundtrip_spec_examples :
    astRoundTrips "\\frac{1}{2}" = true ∧
    astRoundTrips "x^2" = true ∧
    astRoundTrips "x^{10}" = true ∧
    astRoundTrips "\\sqrt[3]{x}" = true ∧
    serializeToLatex (MathNode.fraction (.number "1") (.number "2")) ⟨false, true⟩ =
      "\\frac{1}{2}" :=
  ⟨rfl, rfl, rfl, rfl, rfl⟩

/-- C3: pushing a state onto history always empties the future stack, in
both the merge and the non-merge branch; consequently canRedo is false and
redo is a no-op after any push, in particular after push, undo, push. -/
theorem pushHistory_clears_future :
    ∀ (h : History) (s : EditorState) (opts : HistoryOptions),
      (pushHistory h s opts).future = [] ∧
      canRedo (pushHistory h s opts) = false ∧
      redo (pushHistory h s opts) = pushHistory h s opts ∧
      ∀ (s2 : EditorState) (opts2 : HistoryOptions),
        canRedo (pushHistory (undo (pushHistory h s opts)) s2 opts2) = false := by
  have hfut : ∀ (h : History) (s : EditorState) (opts : HistoryOptions),
      (pushHistory h s opts).future = [] := by
    intro h s opts
    unfold pushHistory
    split <;> rfl
  have hredo0 : ∀ hh : History, hh.future = [] → canRedo hh = false := by
    intro ⟨p, pr, f⟩ hf
    simp only at hf
    subst hf
    rfl
  have hredo1 : ∀ hh : History, hh.future = [] → redo hh = hh := by
    intro ⟨p, pr, f⟩ hf
    simp only at hf
    subst hf
    rfl
  intro h s opts
  refine ⟨hfut h s opts, hredo0 _ (hfut h s opts), hredo1 _ (hfut h s opts), ?_⟩
  intro s2 opts2
  exact hredo0 _ (hfut _ s2 opts2)

/-- C10: undo and redo are exact inverses on non-trivial histories — redo
after undo restores a history with non-empty past, and undo after redo
restores a history with non-empty future. -/
theorem undo_redo_exact_inverse :
    (∀ h : History, h.past ≠ [] → redo (undo h) = h) ∧
    (∀ h : History, h.future ≠ [] → undo (redo h) = h) := by
  constructor
  · intro ⟨past, present, future⟩ hne
    simp only at hne
    show redo (undo ⟨past, present, future⟩) = _
    rw [undo]
    rw [List.getLast?_eq_getLast past hne]
    show redo ⟨past.dropLast, past.getLast hne, present :: future⟩ = _
    rw [redo]
    simp only
    rw [List.dropLast_append_getLast hne]
  · intro ⟨past, present, future⟩ hne
    simp only at hne
    match future with
    | [] => exact absurd rfl hne
    | x :: rest =>
      show undo (redo ⟨past, present, x :: rest⟩) = _
      rw [redo]
      show undo ⟨past ++ [present], x, rest⟩ = _
      rw [undo]
      simp only [List.getLast?_concat, List.dropLast_concat]

/-- Witness for the undo/redo inverse laws at a concrete history. -/
theorem undo_redo_exact_inverse_witness :
    (([createEmptyState] : List EditorState) ≠ [] ∧
      redo (undo ⟨[createEmptyState], createEmptyState, []⟩) =
        ⟨[createEmptyState], createEmptyState, []⟩) ∧
    (([createEmptyState] : List EditorState) ≠ [] ∧
      undo (redo ⟨[], createEmptyState, [createEmptyState]⟩) =
        ⟨[], createEmptyState, [createEmptyState]⟩) :=
  ⟨⟨List.cons_ne_nil _ _,
      undo_redo_exact_inverse.1 ⟨[createEmptyState], createEmptyState, []⟩
        (List.cons_ne_nil _ _)⟩,
    ⟨List.cons_ne_nil _ _,
      undo_redo_exact_inverse.2 ⟨[], createEmptyState, [createEmptyState]⟩
        (List.cons_ne_nil _ _)⟩⟩

/-- C4: compareCursors implements the non-lexicographic prefix rule — when
one path is a strict prefix of the other, the shorter cursor's offset is
compared against the longer path's component at the prefix length, with
`≤` meaning the shorter cursor comes first; equal paths compare by offset;
in particular the cursor at path [], offset 1 is strictly before the cursor
at path [1,0], offset 1, and conversely. -/
theorem compareCursors_prefix_rule :
    (∀ (p t : List Nat) (aoff boff bi : Nat),
      compareCursors ⟨p, aoff⟩ ⟨p ++ bi :: t, boff⟩ = if aoff ≤ bi then -1 else 1) ∧
    (∀ (p t : List Nat) (aoff boff ai : Nat),
      compareCursors ⟨p ++ ai :: t, aoff⟩ ⟨p, boff⟩ = if boff ≤ ai then 1 else -1) ∧
    (∀ (p : List Nat) (aoff boff : Nat),
      compareCursors ⟨p, aoff⟩ ⟨p, boff⟩ =
        if aoff < boff then -1 else if boff < aoff then 1 else 0) ∧
    compareCursors ⟨[], 1⟩ ⟨[1, 0], 1⟩ = -1 ∧
    compareCursors ⟨[1, 0], 1⟩ ⟨[], 1⟩ = 1 := by
  have h1 : ∀ (p t : List Nat) (aoff boff bi : Nat),
      comparePaths p aoff (p ++ bi :: t) boff = if aoff ≤ bi then -1 else 1 := by
    intro p
    induction p with
    | nil => intro t aoff boff bi; rfl
    | cons a p ih =>
      intro t aoff boff bi
      show comparePaths (a :: p) aoff (a :: (p ++ bi :: t)) boff = _
      rw [comparePaths]
      simp only [lt_irrefl, if_false]
      exact ih t aoff boff bi
  have h2 : ∀ (p t : List Nat) (aoff boff ai : Nat),
      comparePaths (p ++ ai :: t) aoff p boff = if boff ≤ ai then 1 else -1 := by
    intro p
    induction p with
    | nil => intro t aoff boff ai; rfl
    | cons a p ih =>
      intro t aoff boff ai
      show comparePaths (a :: (p ++ ai :: t)) aoff (a :: p) boff = _
      rw [comparePaths]
      simp only [lt_irrefl, if_false]
      exact ih t aoff boff ai
  have h3 : ∀ (p : List Nat) (aoff boff : Nat),
      comparePaths p aoff p boff =
        if aoff < boff then -1 else if boff < aoff then 1 else 0 := by
    intro p
    induction p with
    | nil => intro aoff boff; rfl
    | cons a p ih =>
      intro aoff boff
      rw [comparePaths]
      simp only [lt_irrefl, if_false]
      exact ih aoff boff
  exact ⟨fun p t aoff boff bi => h1 p t aoff boff bi,
    fun p t aoff boff ai => h2 p t aoff boff ai,
    fun p aoff boff => h3 p aoff boff, rfl, rfl⟩

theorem updateSelection_root (s : EditorState) (sel : Selection) :
    (updateSelection s sel).root = s.root := rfl

/-- C9: deleteBackward with a collapsed cursor at offset 0 of a nested row
performs no deletion — deleteAtPosition is inapplicable there, the command
reduces to the moveLeft fallback, and any resulting state keeps the input
tree unchanged. -/
theorem deleteBackward_offset0_nested (s : EditorState) (cs : List MathNode)
    (hcol : isCollapsed s.selection = true)
    (hrow : getNodeAtPath s.root s.selection.focus.path = some (.row cs))
    (hne : s.selection.focus.path ≠ [])
    (hoff : s.selection.focus.offset = 0) :
    Del.deleteBackward s = moveLeft false s ∧
    Del.deleteAtPosition s.root s.selection.focus .backward = none ∧
    ∀ s', Del.deleteBackward s = some s' → s'.root = s.root := by
  have hpos : Del.deleteAtPosition s.root s.selection.focus .backward = none := by
    unfold Del.deleteAtPosition
    rw [hrow]
    simp only [hoff]
    rw [if_pos (by decide)]
    rw [if_pos (List.length_pos.mpr hne)]
  have hcmd : Del.deleteBackward s = moveLeft false s := by
    unfold Del.deleteBackward
    rw [hcol]
    rw [if_neg (by decide)]
    rw [hpos]
  refine ⟨hcmd, hpos, ?_⟩
  intro s' h
  rw [hcmd] at h
  unfold moveLeft at h
  rw [hcol] at h
  rw [if_neg (by decide)] at h
  cases hmc : moveCursorLeft s.root s.selection.focus with
  | none => rw [hmc] at h; cases h
  | some newPos =>
    rw [hmc] at h
    simp only [Option.some.injEq] at h
    rw [← h]
    rfl

/-- Witness for the frame property of deleteBackward at offset 0 of a
nested row, at a fraction whose numerator slot holds the cursor. -/
theorem deleteBackward_offset0_nested_witness :
    (let st : EditorState :=
      ⟨.row [.fraction (.row [.placeholder]) (.row [.placeholder])],
        collapsedSelection ⟨[0, 0], 0⟩⟩
    Del.deleteBackward st = moveLeft false st ∧
    Del.deleteAtPosition st.root st.selection.focus .backward = none ∧
    ∀ s', Del.deleteBackward st = some s' → s'.root = st.root) :=
  deleteBackward_offset0_nested
    ⟨.row [.fraction (.row [.placeholder]) (.row [.placeholder])],
      collapsedSelection ⟨[0, 0], 0⟩⟩
    [MathNode.placeholder] (by decide) rfl (by decide) rfl

theorem compareCursors_self (a : CursorPosition) : compareCursors a a = 0 := by
  show comparePaths a.path a.offset a.path a.offset = 0
  induction a.path with
  | nil => simp [comparePaths]
  | cons i p ih =>
    rw [comparePaths]
    simp only [lt_irrefl, if_false]
    exact ih

theorem isCollapsed_collapsedSelection (pos : CursorPosition) :
    isCollapsed (collapsedSelection pos) = true := by
  show cursorsEqual pos pos = true
  unfold cursorsEqual
  rw [compareCursors_self]
  rfl

theorem get?_set_self_of_lt {α : Type} (l : List α) (i : Nat) (a : α) (h : i < l.length) :
    (l.set i a).get? i = some a := by
  induction l generalizing i with
  | nil => cases h
  | cons x xs ih =>
    cases i with
    | zero => rfl
    | succ j => exact ih j (Nat.lt_of_succ_lt_succ h)

theorem getNodeAtPath_append (root : MathNode) (p q : List Nat) :
    getNodeAtPath root (p ++ q) = (getNodeAtPath root p).bind fun n => getNodeAtPath n q := by
  induction p generalizing root with
  | nil => rfl
  | cons i rest ih =>
    show (match (getChildNodes root).get? i with
      | some c => getNodeAtPath c (rest ++ q)
      | none => none) = _
    cases hc : (getChildNodes root).get? i with
    | none =>
      have h1 : getNodeAtPath root (i :: rest) = none := by
        show (match (getChildNodes root).get? i with
          | some c => getNodeAtPath c rest
          | none => none) = none
        rw [hc]
      rw [h1]; rfl
    | some c =>
      have h1 : getNodeAtPath root (i :: rest) = getNodeAtPath c rest := by
        show (match (getChildNodes root).get? i with
          | some c => getNodeAtPath c rest
          | none => none) = getNodeAtPath c rest
        rw [hc]
      rw [h1]
      exact ih c

theorem settable_append (root : MathNode) (q : List Nat) (i : Nat)
    (h : settablePath root (q ++ [i]) = true) :
    settablePath root q = true ∧
    ∃ parent, getNodeAtPath root q = some parent ∧ replaceableKind parent = true ∧
      i < (getChildNodes parent).length := by
  induction q generalizing root with
  | nil =>
    rw [show ([] : List Nat) ++ [i] = [i] from rfl] at h
    unfold settablePath at h
    rw [Bool.and_eq_true] at h
    rcases h with ⟨hrk, hrest⟩
    refine ⟨rfl, root, rfl, hrk, ?_⟩
    cases hc : (getChildNodes root).get? i with
    | none => rw [hc] at hrest; cases hrest
    | some c =>
      have := List.get?_eq_some.mp hc
      exact this.1
  | cons j rest ih =>
    rw [List.cons_append] at h
    unfold settablePath at h
    rw [Bool.and_eq_true] at h
    rcases h with ⟨hrk, hrest⟩
    cases hc : (getChildNodes root).get? j with
    | none => rw [hc] at hrest; cases hrest
    | some c =>
      rw [hc] at hrest
      rcases ih c hrest with ⟨hs, parent, hget, hpk, hlen⟩
      constructor
      · unfold settablePath
        rw [hc]
        rw [Bool.and_eq_true]
        exact ⟨hrk, hs⟩
      · refine ⟨parent, ?_, hpk, hlen⟩
        show (match (getChildNodes root).get? j with
          | some c => getNodeAtPath c rest
          | none => none) = some parent
        rw [hc]
        exact hget

theorem getChildNodes_replaceChild (n : MathNode) (i : Nat) (x : MathNode)
    (hrk : replaceableKind n = true) (hlen : i < (getChildNodes n).length) :
    getChildNodes (Del.replaceChild n i x) = (getChildNodes n).set i x := by
  cases n with
  | row cs => rfl
  | fraction a b =>
    simp only [getChildNodes, List.length_cons, List.length_nil] at hlen
    match i, hlen with
    | 0, _ => rfl
    | 1, _ => rfl
  | power a b =>
    simp only [getChildNodes, List.length_cons, List.length_nil] at hlen
    match i, hlen with
    | 0, _ => rfl
    | 1, _ => rfl
  | subscript a b =>
    simp only [getChildNodes, List.length_cons, List.length_nil] at hlen
    match i, hlen with
    | 0, _ => rfl
    | 1, _ => rfl
  | subsup a b c =>
    simp only [getChildNodes, List.length_cons, List.length_nil] at hlen
    match i, hlen with
    | 0, _ => rfl
    | 1, _ => rfl
    | 2, _ => rfl
  | sqrt r idx =>
    cases idx with
    | none =>
      simp only [getChildNodes, List.length_cons, List.length_nil] at hlen
      match i, hlen with
      | 0, _ => rfl
    | some ix =>
      simp only [getChildNodes, List.length_cons, List.length_nil] at hlen
      match i, hlen with
      | 0, _ => rfl
      | 1, _ => rfl
  | parens od cd c psize =>
    simp only [getChildNodes, List.length_cons, List.length_nil] at hlen
    match i, hlen with
    | 0, _ => rfl
  | number v => cases hrk
  | symbol v => cases hrk
  | operator v => cases hrk
  | text v => cases hrk
  | space v => cases hrk
  | placeholder => cases hrk
  | func a b c => cases hrk
  | matrix a b c => cases hrk

/-- After replacing along a settable path, resolving that path yields the
new node. -/
theorem replaceGo_get :
    ∀ (fuel : Nat) (p : List Nat) (root x : MathNode), p.length ≤ fuel →
      settablePath root p = true →
      getNodeAtPath (Del.replaceGo root fuel p x) p = some x := by
  intro fuel
  induction fuel with
  | zero =>
    intro p root x hlen _
    have hp : p = [] := List.eq_nil_of_length_eq_zero (Nat.le_zero.mp hlen)
    subst hp
    rfl
  | succ f ih =>
    intro p root x hlen hset
    rcases List.eq_nil_or_concat p with rfl | ⟨q, last, rfl⟩
    · rfl
    · rw [List.concat_eq_append] at hlen hset ⊢
      rcases settable_append root q last hset with ⟨hsq, parent, hget, hpk, hlt⟩
      have hq : (q ++ [last]).dropLast = q := List.dropLast_concat
      have hidx : indexInParent (q ++ [last]) = last := by
        unfold indexInParent
        rw [List.getLast?_concat]
        rfl
      have hqlen : q.length ≤ f := by
        have hql : (q ++ [last]).length = q.length + 1 := by simp
        omega
      have hcons : q ++ [last] ≠ [] := by simp
      have hunf : Del.replaceGo root (f + 1) (q ++ [last]) x =
          Del.replaceGo root f q (Del.replaceChild parent last x) := by
        rcases List.exists_cons_of_ne_nil hcons with ⟨a, as, hqq⟩
        rw [hqq]
        show (match getNodeAtPath root (parentPath (a :: as)) with
          | none => root
          | some par => Del.replaceGo root f (parentPath (a :: as))
              (Del.replaceChild par (indexInParent (a :: as)) x)) =
          Del.replaceGo root f q (Del.replaceChild parent last x)
        rw [← hqq, show parentPath (q ++ [last]) = q from by
          unfold parentPath; exact List.dropLast_concat, hidx, hget]
      rw [hunf]
      have hrec := ih q root (Del.replaceChild parent last x) hqlen hsq
      rw [getNodeAtPath_append]
      rw [hrec]
      show getNodeAtPath (Del.replaceChild parent last x) [last] = some x
      unfold getNodeAtPath
      rw [getChildNodes_replaceChild parent last x hpk hlt]
      rw [get?_set_self_of_lt _ _ _ (by simpa using hlt)]
      rfl

/-- C8 (amended): a delete command at a cursor sitting exactly at a lone
placeholder (the sole content of a structure slot) removes the entire
enclosing structure, replacing it by a fresh placeholder at the structure's
position in the parent row, and puts the cursor at that placeholder —
provided every step of the path to that parent row passes through kinds the
delete-side replaceChild rewrites (settablePath); matrix-cell rows are
excluded, see the counterexample. -/
theorem delete_at_lone_placeholder (root st : MathNode) (cs : List MathNode)
    (rowPath : List Nat) (sIdx pIdx off : Nat) (dir : DelDir)
    (hrow : getNodeAtPath root rowPath = some (.row cs))
    (hst : cs.get? sIdx = some st)
    (hstruct : Del.isStructuredNode st = true)
    (hph : getNodeAtPath root (rowPath ++ [sIdx, pIdx]) = some .placeholder)
    (hset : settablePath root rowPath = true) :
    Del.deleteAtPosition root ⟨rowPath ++ [sIdx, pIdx], off⟩ dir =
      some (Del.replaceNodeAtPath root rowPath (.row (cs.set sIdx .placeholder)),
        cursor (rowPath ++ [sIdx]) 0) ∧
    getNodeAtPath (Del.replaceNodeAtPath root rowPath (.row (cs.set sIdx .placeholder)))
      (rowPath ++ [sIdx]) = some MathNode.placeholder ∧
    getNodeAtPath (Del.replaceNodeAtPath root rowPath (.row (cs.set sIdx .placeholder)))
      rowPath = some (.row (cs.set sIdx .placeholder)) ∧
    Del.deleteBackward ⟨root, collapsedSelection ⟨rowPath ++ [sIdx, pIdx], off⟩⟩ =
      some ⟨Del.replaceNodeAtPath root rowPath (.row (cs.set sIdx .placeholder)),
        collapsedSelection (cursor (rowPath ++ [sIdx]) 0)⟩ := by
  have hslt : sIdx < cs.length := (List.get?_eq_some.mp hst).1
  have hstpath : getNodeAtPath root (rowPath ++ [sIdx]) = some st := by
    rw [getNodeAtPath_append, hrow]
    show (match cs.get? sIdx with
      | some c => getNodeAtPath c []
      | none => none) = some st
    rw [hst]
    rfl
  have hpair : rowPath ++ [sIdx, pIdx] = (rowPath ++ [sIdx]) ++ [pIdx] := by simp
  have hdrop1 : parentPath (rowPath ++ [sIdx, pIdx]) = rowPath ++ [sIdx] := by
    unfold parentPath
    rw [hpair]
    exact List.dropLast_concat
  have hdrop2 : parentPath (rowPath ++ [sIdx]) = rowPath := by
    unfold parentPath
    exact List.dropLast_concat
  have hidx : indexInParent (rowPath ++ [sIdx]) = sIdx := by
    unfold indexInParent
    rw [List.getLast?_concat]
    rfl
  have hlen2 : ¬((rowPath ++ [sIdx, pIdx]).length < 2) := by
    simp only [List.length_append, List.length_cons, List.length_nil]
    omega
  have hdcs : Del.deleteContainingStructure root (rowPath ++ [sIdx, pIdx]) =
      some (Del.replaceNodeAtPath root rowPath (.row (cs.set sIdx .placeholder)),
        cursor (rowPath ++ [sIdx]) 0) := by
    unfold Del.deleteContainingStructure
    rw [if_neg hlen2]
    simp only [hdrop1, hstpath, hstruct, Bool.not_true, Bool.false_eq_true, if_false,
      hdrop2, hrow, hidx]
  have hmain : Del.deleteAtPosition root ⟨rowPath ++ [sIdx, pIdx], off⟩ dir =
      some (Del.replaceNodeAtPath root rowPath (.row (cs.set sIdx .placeholder)),
        cursor (rowPath ++ [sIdx]) 0) := by
    unfold Del.deleteAtPosition
    rw [show (⟨rowPath ++ [sIdx, pIdx], off⟩ : CursorPosition).path =
      rowPath ++ [sIdx, pIdx] from rfl, hph]
    exact hdcs
  have hget : getNodeAtPath (Del.replaceNodeAtPath root rowPath
      (.row (cs.set sIdx .placeholder))) rowPath = some (.row (cs.set sIdx .placeholder)) :=
    replaceGo_get rowPath.length rowPath root _ (Nat.le_refl _) hset
  refine ⟨hmain, ?_, hget, ?_⟩
  · rw [getNodeAtPath_append, hget]
    show (match (cs.set sIdx MathNode.placeholder).get? sIdx with
      | some c => getNodeAtPath c []
      | none => none) = some MathNode.placeholder
    rw [get?_set_self_of_lt _ _ _ hslt]
    rfl
  · have hmainB : Del.deleteAtPosition root ⟨rowPath ++ [sIdx, pIdx], off⟩ DelDir.backward =
        some (Del.replaceNodeAtPath root rowPath (.row (cs.set sIdx .placeholder)),
          cursor (rowPath ++ [sIdx]) 0) := by
      unfold Del.deleteAtPosition
      rw [show (⟨rowPath ++ [sIdx, pIdx], off⟩ : CursorPosition).path =
        rowPath ++ [sIdx, pIdx] from rfl, hph]
      exact hdcs
    unfold Del.deleteBackward
    rw [show (⟨root, collapsedSelection ⟨rowPath ++ [sIdx, pIdx], off⟩⟩ :
      EditorState).selection = collapsedSelection ⟨rowPath ++ [sIdx, pIdx], off⟩ from rfl]
    rw [isCollapsed_collapsedSelection]
    rw [if_neg (by decide)]
    show (match Del.deleteAtPosition root ⟨rowPath ++ [sIdx, pIdx], off⟩ DelDir.backward with
      | none => moveLeft false ⟨root, collapsedSelection ⟨rowPath ++ [sIdx, pIdx], off⟩⟩
      | some (newRoot, newPos) =>
        some (updateState ⟨root, collapsedSelection ⟨rowPath ++ [sIdx, pIdx], off⟩⟩
          newRoot (collapsedSelection newPos))) = _
    rw [hmainB]
    rfl

/-- Witness for C8 at a fraction whose numerator slot is a bare
placeholder. -/
theorem delete_at_lone_placeholder_witness :
    (let root : MathNode := .row [.fraction .placeholder (.number "2")]
    Del.deleteAtPosition root ⟨[0, 0], 0⟩ .backward =
      some (Del.replaceNodeAtPath root [] (.row [.placeholder]), cursor [0] 0) ∧
    getNodeAtPath (Del.replaceNodeAtPath root [] (.row [.placeholder])) [0] =
      some MathNode.placeholder ∧
    getNodeAtPath (Del.replaceNodeAtPath root [] (.row [.placeholder])) [] =
      some (.row [.placeholder]) ∧
    Del.deleteBackward ⟨root, collapsedSelection ⟨[0, 0], 0⟩⟩ =
      some ⟨Del.replaceNodeAtPath root [] (.row [.placeholder]),
        collapsedSelection (cursor [0] 0)⟩) :=
  delete_at_lone_placeholder (.row [.fraction .placeholder (.number "2")])
    (.fraction .placeholder (.number "2")) [.fraction .placeholder (.number "2")]
    [] 0 0 0 .backward rfl rfl rfl rfl rfl

/-- C8 counterexample: when the parent row of the enclosing structure is a
matrix cell, the cursor sits at a lone placeholder of a structured node
exactly as the claim describes, yet the delete-side replaceChild has no
matrix case, so deleteBackward reports success and moves the cursor while
returning the tree unchanged: the enclosing fraction is not removed and no
fresh placeholder appears in the cell row. -/
theorem delete_at_lone_placeholder_matrix_counterexample :
    getNodeAtPath c8CexRoot [0, 0, 0, 0] = some MathNode.placeholder ∧
    getNodeAtPath c8CexRoot [0, 0] =
      some (.row [.fraction .placeholder (.number "2")]) ∧
    Del.isStructuredNode (.fraction .placeholder (.number "2")) = true ∧
    settablePath c8CexRoot [0, 0] = false ∧
    Del.deleteBackward ⟨c8CexRoot, collapsedSelection ⟨[0, 0, 0, 0], 0⟩⟩ =
      some ⟨c8CexRoot, collapsedSelection (cursor [0, 0, 0] 0)⟩ ∧
    getNodeAtPath c8CexRoot [0, 0, 0] =
      some (.fraction .placeholder (.number "2")) :=
  ⟨rfl, rfl, rfl, rfl, rfl, rfl⟩

theorem isEmpty_false_of_ne_nil {α : Type} (l : List α) (h : l ≠ []) : l.isEmpty = false := by
  cases l with
  | nil => exact absurd rfl h
  | cons a as => rfl

theorem nonEmptyRowsList_iff (l : List MathNode) :
    nonEmptyRowsList l = true ↔ ∀ c ∈ l, nonEmptyRows c = true := by
  induction l with
  | nil => simp [nonEmptyRowsList]
  | cons a as ih =>
    rw [show nonEmptyRowsList (a :: as) = (nonEmptyRows a && nonEmptyRowsList as) from rfl]
    rw [Bool.and_eq_true, ih]
    constructor
    · rintro ⟨h1, h2⟩ c hc
      rcases List.mem_cons.mp hc with rfl | hc2
      · exact h1
      · exact h2 c hc2
    · intro h
      exact ⟨h a (List.mem_cons_self a as), fun c hc => h c (List.mem_cons_of_mem a hc)⟩

theorem nonEmptyRowsRows_iff (rs : List (List MathNode)) :
    nonEmptyRowsRows rs = true ↔ ∀ r ∈ rs, nonEmptyRowsList r = true := by
  induction rs with
  | nil => simp [nonEmptyRowsRows]
  | cons a as ih =>
    rw [show nonEmptyRowsRows (a :: as) = (nonEmptyRowsList a && nonEmptyRowsRows as) from rfl]
    rw [Bool.and_eq_true, ih]
    constructor
    · rintro ⟨h1, h2⟩ r hr
      rcases List.mem_cons.mp hr with rfl | hr2
      · exact h1
      · exact h2 r hr2
    · intro h
      exact ⟨h a (List.mem_cons_self a as), fun r hr => h r (List.mem_cons_of_mem a hr)⟩

theorem nonEmptyRows_row_iff (cs : List MathNode) :
    nonEmptyRows (.row cs) = true ↔ cs ≠ [] ∧ ∀ c ∈ cs, nonEmptyRows c = true := by
  rw [show nonEmptyRows (.row cs) = (!cs.isEmpty && nonEmptyRowsList cs) from rfl,
    Bool.and_eq_true, nonEmptyRowsList_iff]
  constructor
  · rintro ⟨h1, h2⟩
    refine ⟨?_, h2⟩
    intro he
    subst he
    simp at h1
  · rintro ⟨h1, h2⟩
    refine ⟨?_, h2⟩
    rw [isEmpty_false_of_ne_nil cs h1]
    rfl

theorem mem_getChildNodes_nonEmptyRows (n c : MathNode)
    (hn : nonEmptyRows n = true) (hc : c ∈ getChildNodes n) : nonEmptyRows c = true := by
  cases n with
  | row cs => exact ((nonEmptyRows_row_iff cs).mp hn).2 c hc
  | fraction a b =>
    rw [show nonEmptyRows (.fraction a b) = (nonEmptyRows a && nonEmptyRows b) from rfl,
      Bool.and_eq_true] at hn
    have hc2 : c = a ∨ c = b := by simpa [getChildNodes] using hc
    rcases hc2 with rfl | rfl
    · exact hn.1
    · exact hn.2
  | power a b =>
    rw [show nonEmptyRows (.power a b) = (nonEmptyRows a && nonEmptyRows b) from rfl,
      Bool.and_eq_true] at hn
    have hc2 : c = a ∨ c = b := by simpa [getChildNodes] using hc
    rcases hc2 with rfl | rfl
    · exact hn.1
    · exact hn.2
  | subscript a b =>
    rw [show nonEmptyRows (.subscript a b) = (nonEmptyRows a && nonEmptyRows b) from rfl,
      Bool.and_eq_true] at hn
    have hc2 : c = a ∨ c = b := by simpa [getChildNodes] using hc
    rcases hc2 with rfl | rfl
    · exact hn.1
    · exact hn.2
  | subsup a b e =>
    rw [show nonEmptyRows (.subsup a b e) =
      (nonEmptyRows a && nonEmptyRows b && nonEmptyRows e) from rfl,
      Bool.and_eq_true, Bool.and_eq_true] at hn
    have hc2 : c = a ∨ c = b ∨ c = e := by simpa [getChildNodes] using hc
    rcases hc2 with rfl | rfl | rfl
    · exact hn.1.1
    · exact hn.1.2
    · exact hn.2
  | sqrt r idx =>
    cases idx with
    | none =>
      have hc2 : c = r := by simpa [getChildNodes] using hc
      subst hc2
      exact hn
    | some ix =>
      rw [show nonEmptyRows (.sqrt r (some ix)) = (nonEmptyRows r && nonEmptyRows ix) from rfl,
        Bool.and_eq_true] at hn
      have hc2 : c = r ∨ c = ix := by simpa [getChildNodes] using hc
      rcases hc2 with rfl | rfl
      · exact hn.1
      · exact hn.2
  | parens od cd ct psize =>
    have hc2 : c = ct := by simpa [getChildNodes] using hc
    subst hc2
    exact hn
  | func name arg lim =>
    rw [show nonEmptyRows (.func name arg lim) =
      (nonEmptyRowsOpt arg && nonEmptyRowsLimits lim) from rfl, Bool.and_eq_true] at hn
    obtain ⟨ha, hl⟩ := hn
    cases arg with
    | none =>
      cases lim with
      | none => simp [getChildNodes] at hc
      | some pr =>
        obtain ⟨lo, hi⟩ := pr
        rw [show nonEmptyRowsLimits (some (lo, hi)) =
          (nonEmptyRowsOpt lo && nonEmptyRowsOpt hi) from rfl, Bool.and_eq_true] at hl
        cases lo with
        | none =>
          cases hi with
          | none => simp [getChildNodes] at hc
          | some u =>
            have hc2 : c = u := by simpa [getChildNodes] using hc
            subst hc2
            exact hl.2
        | some l =>
          cases hi with
          | none =>
            have hc2 : c = l := by simpa [getChildNodes] using hc
            subst hc2
            exact hl.1
          | some u =>
            have hc2 : c = l ∨ c = u := by simpa [getChildNodes] using hc
            rcases hc2 with rfl | rfl
            · exact hl.1
            · exact hl.2
    | some a =>
      have ha2 : nonEmptyRows a = true := ha
      cases lim with
      | none =>
        have hc2 : c = a := by simpa [getChildNodes] using hc
        subst hc2
        exact ha2
      | some pr =>
        obtain ⟨lo, hi⟩ := pr
        rw [show nonEmptyRowsLimits (some (lo, hi)) =
          (nonEmptyRowsOpt lo && nonEmptyRowsOpt hi) from rfl, Bool.and_eq_true] at hl
        cases lo with
        | none =>
          cases hi with
          | none =>
            have hc2 : c = a := by simpa [getChildNodes] using hc
            subst hc2
            exact ha2
          | some u =>
            have hc2 : c = a ∨ c = u := by simpa [getChildNodes] using hc
            rcases hc2 with rfl | rfl
            · exact ha2
            · exact hl.2
        | some l =>
          cases hi with
          | none =>
            have hc2 : c = a ∨ c = l := by simpa [getChildNodes] using hc
            rcases hc2 with rfl | rfl
            · exact ha2
            · exact hl.1
          | some u =>
            have hc2 : c = a ∨ c = l ∨ c = u := by simpa [getChildNodes] using hc
            rcases hc2 with rfl | rfl | rfl
            · exact ha2
            · exact hl.1
            · exact hl.2
  | matrix rows style colSpec =>
    have hflat : c ∈ rows.flatten := hc
    obtain ⟨r, hr, hcr⟩ := List.mem_flatten.mp hflat
    exact (nonEmptyRowsList_iff r).mp
      ((nonEmptyRowsRows_iff rows).mp hn r hr) c hcr
  | number v => simp [getChildNodes] at hc
  | symbol v => simp [getChildNodes] at hc
  | operator v => simp [getChildNodes] at hc
  | text v => simp [getChildNodes] at hc
  | space v => simp [getChildNodes] at hc
  | placeholder => simp [getChildNodes] at hc

theorem getNodeAtPath_nonEmptyRows (p : List Nat) :
    ∀ (root n : MathNode), nonEmptyRows root = true →
      getNodeAtPath root p = some n → nonEmptyRows n = true := by
  induction p with
  | nil =>
    intro root n hroot h
    rw [show getNodeAtPath root [] = some root from rfl] at h
    cases h
    exact hroot
  | cons i rest ih =>
    intro root n hroot h
    have h1 : (match (getChildNodes root).get? i with
      | some c => getNodeAtPath c rest
      | none => none) = some n := h
    cases hg : (getChildNodes root).get? i with
    | none => rw [hg] at h1; cases h1
    | some ch =>
      rw [hg] at h1
      exact ih ch n (mem_getChildNodes_nonEmptyRows root ch hroot (List.get?_mem hg)) h1

theorem replaceChild_nonEmptyRows (parent : MathNode) (idx : Nat) (x : MathNode)
    (hp : nonEmptyRows parent = true) (hx : nonEmptyRows x = true) :
    nonEmptyRows (Del.replaceChild parent idx x) = true := by
  cases parent with
  | row cs =>
    rw [nonEmptyRows_row_iff] at hp
    obtain ⟨hne, hmem⟩ := hp
    show nonEmptyRows (.row (cs.set idx x)) = true
    rw [nonEmptyRows_row_iff]
    constructor
    · intro he
      apply hne
      have hlen : cs.length = 0 := by
        have h2 := congrArg List.length he
        rw [List.length_set] at h2
        simpa using h2
      exact List.eq_nil_of_length_eq_zero hlen
    · intro c hcm
      rcases List.mem_or_eq_of_mem_set hcm with hold | rfl
      · exact hmem c hold
      · exact hx
  | fraction a b =>
    rw [show nonEmptyRows (.fraction a b) = (nonEmptyRows a && nonEmptyRows b) from rfl,
      Bool.and_eq_true] at hp
    show nonEmptyRows (if idx == 0 then MathNode.fraction x b else MathNode.fraction a x) = true
    split
    · rw [show nonEmptyRows (.fraction x b) = (nonEmptyRows x && nonEmptyRows b) from rfl,
        Bool.and_eq_true]
      exact ⟨hx, hp.2⟩
    · rw [show nonEmptyRows (.fraction a x) = (nonEmptyRows a && nonEmptyRows x) from rfl,
        Bool.and_eq_true]
      exact ⟨hp.1, hx⟩
  | power a b =>
    rw [show nonEmptyRows (.power a b) = (nonEmptyRows a && nonEmptyRows b) from rfl,
      Bool.and_eq_true] at hp
    show nonEmptyRows (if idx == 0 then MathNode.power x b else MathNode.power a x) = true
    split
    · rw [show nonEmptyRows (.power x b) = (nonEmptyRows x && nonEmptyRows b) from rfl,
        Bool.and_eq_true]
      exact ⟨hx, hp.2⟩
    · rw [show nonEmptyRows (.power a x) = (nonEmptyRows a && nonEmptyRows x) from rfl,
        Bool.and_eq_true]
      exact ⟨hp.1, hx⟩
  | subscript a b =>
    rw [show nonEmptyRows (.subscript a b) = (nonEmptyRows a && nonEmptyRows b) from rfl,
      Bool.and_eq_true] at hp
    show nonEmptyRows
      (if idx == 0 then MathNode.subscript x b else MathNode.subscript a x) = true
    split
    · rw [show nonEmptyRows (.subscript x b) = (nonEmptyRows x && nonEmptyRows b) from rfl,
        Bool.and_eq_true]
      exact ⟨hx, hp.2⟩
    · rw [show nonEmptyRows (.subscript a x) = (nonEmptyRows a && nonEmptyRows x) from rfl,
        Bool.and_eq_true]
      exact ⟨hp.1, hx⟩
  | subsup a b e =>
    rw [show nonEmptyRows (.subsup a b e) =
      (nonEmptyRows a && nonEmptyRows b && nonEmptyRows e) from rfl,
      Bool.and_eq_true, Bool.and_eq_true] at hp
    show nonEmptyRows
      (if idx == 0 then MathNode.subsup x b e
       else if idx == 1 then MathNode.subsup a x e else MathNode.subsup a b x) = true
    split
    · rw [show nonEmptyRows (.subsup x b e) =
        (nonEmptyRows x && nonEmptyRows b && nonEmptyRows e) from rfl,
        Bool.and_eq_true, Bool.and_eq_true]
      exact ⟨⟨hx, hp.1.2⟩, hp.2⟩
    · split
      · rw [show nonEmptyRows (.subsup a x e) =
          (nonEmptyRows a && nonEmptyRows x && nonEmptyRows e) from rfl,
          Bool.and_eq_true, Bool.and_eq_true]
        exact ⟨⟨hp.1.1, hx⟩, hp.2⟩
      · rw [show nonEmptyRows (.subsup a b x) =
          (nonEmptyRows a && nonEmptyRows b && nonEmptyRows x) from rfl,
          Bool.and_eq_true, Bool.and_eq_true]
        exact ⟨hp.1, hx⟩
  | sqrt r idx0 =>
    cases idx0 with
    | none =>
      show nonEmptyRows
        (if idx == 0 then MathNode.sqrt x none else MathNode.sqrt r (some x)) = true
      split
      · exact hx
      · rw [show nonEmptyRows (.sqrt r (some x)) = (nonEmptyRows r && nonEmptyRows x) from rfl,
          Bool.and_eq_true]
        exact ⟨hp, hx⟩
    | some ix =>
      rw [show nonEmptyRows (.sqrt r (some ix)) = (nonEmptyRows r && nonEmptyRows ix) from rfl,
        Bool.and_eq_true] at hp
      show nonEmptyRows
        (if idx == 0 then MathNode.sqrt x (some ix) else MathNode.sqrt r (some x)) = true
      split
      · rw [show nonEmptyRows (.sqrt x (some ix)) =
          (nonEmptyRows x && nonEmptyRows ix) from rfl, Bool.and_eq_true]
        exact ⟨hx, hp.2⟩
      · rw [show nonEmptyRows (.sqrt r (some x)) = (nonEmptyRows r && nonEmptyRows x) from rfl,
          Bool.and_eq_true]
        exact ⟨hp.1, hx⟩
  | parens od cd ct psize => exact hx
  | number v => exact hp
  | symbol v => exact hp
  | operator v => exact hp
  | text v => exact hp
  | space v => exact hp
  | placeholder => exact hp
  | func a b c => exact hp
  | matrix a b c => exact hp

theorem replaceGo_nonEmptyRows :
    ∀ (fuel : Nat) (p : List Nat) (root x : MathNode), nonEmptyRows root = true →
      nonEmptyRows x = true → nonEmptyRows (Del.replaceGo root fuel p x) = true := by
  intro fuel
  induction fuel with
  | zero =>
    intro p root x hr hx
    cases p with
    | nil => exact hx
    | cons a as => exact hr
  | succ k ih =>
    intro p root x hr hx
    cases p with
    | nil => exact hx
    | cons a as =>
      show nonEmptyRows (match getNodeAtPath root (parentPath (a :: as)) with
        | none => root
        | some parent => Del.replaceGo root k (parentPath (a :: as))
            (Del.replaceChild parent (indexInParent (a :: as)) x)) = true
      cases hg : getNodeAtPath root (parentPath (a :: as)) with
      | none => exact hr
      | some parent =>
        exact ih _ root _ hr (replaceChild_nonEmptyRows parent _ x
          (getNodeAtPath_nonEmptyRows _ root parent hr hg) hx)

theorem replaceNodeAtPath_nonEmptyRows (root : MathNode) (p : List Nat) (x : MathNode)
    (hr : nonEmptyRows root = true) (hx : nonEmptyRows x = true) :
    nonEmptyRows (Del.replaceNodeAtPath root p x) = true :=
  replaceGo_nonEmptyRows p.length p root x hr hx

theorem getMainContent_nonEmptyRows (s m : MathNode)
    (hs : nonEmptyRows s = true) (h : Del.getMainContent s = some m) :
    nonEmptyRows m = true := by
  cases s with
  | fraction a b =>
    rw [show nonEmptyRows (.fraction a b) = (nonEmptyRows a && nonEmptyRows b) from rfl,
      Bool.and_eq_true] at hs
    cases h
    exact hs.1
  | power a b =>
    rw [show nonEmptyRows (.power a b) = (nonEmptyRows a && nonEmptyRows b) from rfl,
      Bool.and_eq_true] at hs
    cases h
    exact hs.1
  | subscript a b =>
    rw [show nonEmptyRows (.subscript a b) = (nonEmptyRows a && nonEmptyRows b) from rfl,
      Bool.and_eq_true] at hs
    cases h
    exact hs.1
  | subsup a b e =>
    rw [show nonEmptyRows (.subsup a b e) =
      (nonEmptyRows a && nonEmptyRows b && nonEmptyRows e) from rfl,
      Bool.and_eq_true, Bool.and_eq_true] at hs
    cases h
    exact hs.1.1
  | sqrt r idx =>
    cases idx with
    | none =>
      cases h
      exact hs
    | some ix =>
      rw [show nonEmptyRows (.sqrt r (some ix)) =
        (nonEmptyRows r && nonEmptyRows ix) from rfl, Bool.and_eq_true] at hs
      cases h
      exact hs.1
  | parens od cd ct psize =>
    cases h
    exact hs
  | row cs => cases h
  | number v => cases h
  | symbol v => cases h
  | operator v => cases h
  | text v => cases h
  | space v => cases h
  | placeholder => cases h
  | func a b c => cases h
  | matrix a b c => cases h

/-- The placeholder-or-splice row built by the delete commands satisfies
the never-empty invariant once every candidate child does. -/
theorem spliceRow_nonEmptyRows (newChildren : List MathNode)
    (hmem : ∀ x ∈ newChildren, nonEmptyRows x = true) :
    nonEmptyRows (MathNode.row
      (if newChildren.isEmpty then [MathNode.placeholder] else newChildren)) = true := by
  rw [nonEmptyRows_row_iff]
  cases hne : newChildren.isEmpty with
  | true =>
    rw [if_pos rfl]
    refine ⟨by simp, ?_⟩
    intro x hx
    have hx2 : x = MathNode.placeholder := by simpa using hx
    subst hx2
    rfl
  | false =>
    rw [if_neg (by simp)]
    refine ⟨?_, hmem⟩
    intro he
    subst he
    simp at hne

theorem flattenStructureBackward_nonEmptyRows (root : MathNode) (rowPath : List Nat)
    (targetIdx : Nat) (struct r : MathNode) (c : CursorPosition)
    (hroot : nonEmptyRows root = true) (hstruct : nonEmptyRows struct = true)
    (h : Del.flattenStructureBackward root rowPath targetIdx struct = some (r, c)) :
    nonEmptyRows r = true := by
  unfold Del.flattenStructureBackward at h
  cases hgp : getNodeAtPath root rowPath with
  | none => rw [hgp] at h; cases h
  | some node =>
    rw [hgp] at h
    cases node with
    | row children =>
      cases hm : Del.getMainContent struct with
      | none => rw [hm] at h; cases h
      | some mainContent =>
        rw [hm] at h
        have hmain : nonEmptyRows mainContent = true :=
          getMainContent_nonEmptyRows struct mainContent hstruct hm
        have hrowinv := getNodeAtPath_nonEmptyRows rowPath root _ hroot hgp
        rw [nonEmptyRows_row_iff] at hrowinv
        simp only [Option.some.injEq, Prod.mk.injEq] at h
        obtain ⟨hr, _⟩ := h
        subst hr
        apply replaceNodeAtPath_nonEmptyRows _ _ _ hroot
        rw [nonEmptyRows_row_iff]
        constructor
        · intro he
          have hlen := congrArg List.length he
          simp only [List.length_append, List.length_nil] at hlen
          have hcne : (match mainContent with
            | MathNode.row cs => cs | m => [m]).length ≠ 0 := by
            cases mainContent with
            | row cs =>
              rw [nonEmptyRows_row_iff] at hmain
              intro hz
              exact hmain.1 (List.eq_nil_of_length_eq_zero hz)
            | number v => simp
            | symbol v => simp
            | operator v => simp
            | text v => simp
            | space v => simp
            | placeholder => simp
            | fraction a b => simp
            | power a b => simp
            | subscript a b => simp
            | subsup a b e => simp
            | sqrt a b => simp
            | parens a b e d => simp
            | func a b e => simp
            | matrix a b e => simp
          omega
        · intro x hx
          rw [List.append_assoc, List.mem_append, List.mem_append] at hx
          rcases hx with htake | hmid | hdrop
          · exact hrowinv.2 x (List.mem_of_mem_take htake)
          · cases hmc : mainContent with
            | row cs =>
              rw [hmc] at hmid hmain
              rw [nonEmptyRows_row_iff] at hmain
              exact hmain.2 x (by simpa using hmid)
            | number v =>
              rw [hmc] at hmid
              have hx2 : x = MathNode.number v := by simpa using hmid
              subst hx2; rw [← hmc]; exact hmain
            | symbol v =>
              rw [hmc] at hmid
              have hx2 : x = MathNode.symbol v := by simpa using hmid
              subst hx2; rw [← hmc]; exact hmain
            | operator v =>
              rw [hmc] at hmid
              have hx2 : x = MathNode.operator v := by simpa using hmid
              subst hx2; rw [← hmc]; exact hmain
            | text v =>
              rw [hmc] at hmid
              have hx2 : x = MathNode.text v := by simpa using hmid
              subst hx2; rw [← hmc]; exact hmain
            | space v =>
              rw [hmc] at hmid
              have hx2 : x = MathNode.space v := by simpa using hmid
              subst hx2; rw [← hmc]; exact hmain
            | placeholder =>
              rw [hmc] at hmid
              have hx2 : x = MathNode.placeholder := by simpa using hmid
              subst hx2; rfl
            | fraction a b =>
              rw [hmc] at hmid
              have hx2 : x = MathNode.fraction a b := by simpa using hmid
              subst hx2; rw [← hmc]; exact hmain
            | power a b =>
              rw [hmc] at hmid
              have hx2 : x = MathNode.power a b := by simpa using hmid
              subst hx2; rw [← hmc]; exact hmain
            | subscript a b =>
              rw [hmc] at hmid
              have hx2 : x = MathNode.subscript a b := by simpa using hmid
              subst hx2; rw [← hmc]; exact hmain
            | subsup a b e =>
              rw [hmc] at hmid
              have hx2 : x = MathNode.subsup a b e := by simpa using hmid
              subst hx2; rw [← hmc]; exact hmain
            | sqrt a b =>
              rw [hmc] at hmid
              have hx2 : x = MathNode.sqrt a b := by simpa using hmid
              subst hx2; rw [← hmc]; exact hmain
            | parens a b e d =>
              rw [hmc] at hmid
              have hx2 : x = MathNode.parens a b e d := by simpa using hmid
              subst hx2; rw [← hmc]; exact hmain
            | func a b e =>
              rw [hmc] at hmid
              have hx2 : x = MathNode.func a b e := by simpa using hmid
              subst hx2; rw [← hmc]; exact hmain
            | matrix a b e =>
              rw [hmc] at hmid
              have hx2 : x = MathNode.matrix a b e := by simpa using hmid
              subst hx2; rw [← hmc]; exact hmain
          · exact hrowinv.2 x (List.mem_of_mem_drop hdrop)
    | number v => cases h
    | symbol v => cases h
    | operator v => cases h
    | text v => cases h
    | space v => cases h
    | placeholder => cases h
    | fraction a b => cases h
    | power a b => cases h
    | subscript a b => cases h
    | subsup a b e => cases h
    | sqrt a b => cases h
    | parens a b e d => cases h
    | func a b e => cases h
    | matrix a b e => cases h

theorem deleteContainingStructure_nonEmptyRows (root : MathNode) (p : List Nat)
    (r : MathNode) (c : CursorPosition) (hroot : nonEmptyRows root = true)
    (h : Del.deleteContainingStructure root p = some (r, c)) : nonEmptyRows r = true := by
  unfold Del.deleteContainingStructure at h
  split at h
  · cases h
  · have h2 : (match getNodeAtPath root (parentPath p) with
      | none => none
      | some struct =>
        if (!Del.isStructuredNode struct) = true then none
        else
          match getNodeAtPath root (parentPath (parentPath p)) with
          | some (MathNode.row children) =>
            some (Del.replaceNodeAtPath root (parentPath (parentPath p))
                (MathNode.row (children.set (indexInParent (parentPath p))
                  MathNode.placeholder)),
              cursor ((parentPath (parentPath p)) ++ [indexInParent (parentPath p)]) 0)
          | _ => none) = some (r, c) := h
    clear h
    cases hgs : getNodeAtPath root (parentPath p) with
    | none => rw [hgs] at h2; cases h2
    | some struct =>
      rw [hgs] at h2
      have h3 : (if (!Del.isStructuredNode struct) = true then none
        else
          match getNodeAtPath root (parentPath (parentPath p)) with
          | some (MathNode.row children) =>
            some (Del.replaceNodeAtPath root (parentPath (parentPath p))
                (MathNode.row (children.set (indexInParent (parentPath p))
                  MathNode.placeholder)),
              cursor ((parentPath (parentPath p)) ++ [indexInParent (parentPath p)]) 0)
          | _ => none) = some (r, c) := h2
      clear h2
      cases hsn : Del.isStructuredNode struct with
      | false => rw [hsn] at h3; simp at h3
      | true =>
        rw [hsn, if_neg (by decide)] at h3
        cases hgr : getNodeAtPath root (parentPath (parentPath p)) with
        | none => rw [hgr] at h3; cases h3
        | some node =>
          rw [hgr] at h3
          have h := h3
          cases node with
          | row children =>
            simp only [Option.some.injEq, Prod.mk.injEq] at h
            obtain ⟨hr, _⟩ := h
            subst hr
            have hrowinv := getNodeAtPath_nonEmptyRows _ root _ hroot hgr
            rw [nonEmptyRows_row_iff] at hrowinv
            apply replaceNodeAtPath_nonEmptyRows _ _ _ hroot
            rw [nonEmptyRows_row_iff]
            constructor
            · intro he
              apply hrowinv.1
              have h2 := congrArg List.length he
              rw [List.length_set] at h2
              exact List.eq_nil_of_length_eq_zero (by simpa using h2)
            · intro x hx
              rcases List.mem_or_eq_of_mem_set hx with hold | rfl
              · exact hrowinv.2 x hold
              · rfl
          | number v => cases h
          | symbol v => cases h
          | operator v => cases h
          | text v => cases h
          | space v => cases h
          | placeholder => cases h
          | fraction a b => cases h
          | power a b => cases h
          | subscript a b => cases h
          | subsup a b e => cases h
          | sqrt a b => cases h
          | parens a b e d => cases h
          | func a b e => cases h
          | matrix a b e => cases h

theorem mem_of_head?_eq (l : List MathNode) (a : MathNode) (h : l.head? = some a) :
    a ∈ l := by
  cases l with
  | nil => cases h
  | cons x xs =>
    cases h
    exact List.mem_cons_self _ _

theorem deleteAtPosition_nonEmptyRows (root : MathNode) (pos : CursorPosition)
    (dir : DelDir) (r : MathNode) (c : CursorPosition)
    (hroot : nonEmptyRows root = true)
    (h : Del.deleteAtPosition root pos dir = some (r, c)) : nonEmptyRows r = true := by
  unfold Del.deleteAtPosition at h
  cases hgp : getNodeAtPath root pos.path with
  | none => rw [hgp] at h; cases h
  | some node =>
    rw [hgp] at h
    cases node with
    | placeholder => exact deleteContainingStructure_nonEmptyRows root pos.path r c hroot h
    | row children =>
      have hrow := getNodeAtPath_nonEmptyRows pos.path root _ hroot hgp
      rw [nonEmptyRows_row_iff] at hrow
      cases dir with
      | backward =>
        have h2 : (if (pos.offset == 0) = true then
            if pos.path.length > 0 then none
            else
              if (decide (children.length > 0) && !lonePlaceholder children) = true then
                match children.head? with
                | some targetChild =>
                  if Del.isStructuredNode targetChild then
                    Del.flattenStructureForward root pos.path 0 targetChild
                  else
                    some (Del.replaceNodeAtPath root pos.path
                        (.row (if (children.drop 1).isEmpty then [MathNode.placeholder]
                          else children.drop 1)),
                      cursor pos.path 0)
                | none => none
              else none
          else
            match children.get? (pos.offset - 1) with
            | none => none
            | some targetChild =>
              if Del.isStructuredNode targetChild then
                Del.flattenStructureBackward root pos.path (pos.offset - 1) targetChild
              else
                some (Del.replaceNodeAtPath root pos.path
                    (.row (if (children.take (pos.offset - 1) ++
                        children.drop (pos.offset - 1 + 1)).isEmpty then
                      [MathNode.placeholder]
                      else children.take (pos.offset - 1) ++
                        children.drop (pos.offset - 1 + 1))),
                  cursor pos.path (max 0 (pos.offset - 1)))) = some (r, c) := h
        clear h
        cases hoff : pos.offset == 0 with
        | true =>
          rw [hoff, if_pos rfl] at h2
          by_cases hlen : pos.path.length > 0
          · rw [if_pos hlen] at h2; cases h2
          · rw [if_neg hlen] at h2
            cases hcond : (decide (children.length > 0) && !lonePlaceholder children) with
            | false => rw [hcond] at h2; simp at h2
            | true =>
              rw [hcond, if_pos rfl] at h2
              cases hh : children.head? with
              | none => rw [hh] at h2; cases h2
              | some targetChild =>
                rw [hh] at h2
                have h3 : (if Del.isStructuredNode targetChild = true then
                    Del.flattenStructureForward root pos.path 0 targetChild
                  else
                    some (Del.replaceNodeAtPath root pos.path
                        (.row (if (children.drop 1).isEmpty then [MathNode.placeholder]
                          else children.drop 1)),
                      cursor pos.path 0)) = some (r, c) := h2
                clear h2
                have htc : nonEmptyRows targetChild = true :=
                  hrow.2 targetChild (mem_of_head?_eq children targetChild hh)
                cases hsn : Del.isStructuredNode targetChild with
                | true =>
                  rw [hsn, if_pos rfl] at h3
                  exact flattenStructureBackward_nonEmptyRows root pos.path 0
                    targetChild r c hroot htc h3
                | false =>
                  rw [hsn] at h3
                  rw [if_neg (by decide)] at h3
                  simp only [Option.some.injEq, Prod.mk.injEq] at h3
                  obtain ⟨hr, _⟩ := h3
                  subst hr
                  apply replaceNodeAtPath_nonEmptyRows _ _ _ hroot
                  apply spliceRow_nonEmptyRows
                  intro x hx
                  exact hrow.2 x (List.mem_of_mem_drop hx)
        | false =>
          rw [hoff] at h2
          rw [if_neg (by decide)] at h2
          cases hg : children.get? (pos.offset - 1) with
          | none => rw [hg] at h2; cases h2
          | some targetChild =>
            rw [hg] at h2
            have h3 : (if Del.isStructuredNode targetChild = true then
                Del.flattenStructureBackward root pos.path (pos.offset - 1) targetChild
              else
                some (Del.replaceNodeAtPath root pos.path
                    (.row (if (children.take (pos.offset - 1) ++
                        children.drop (pos.offset - 1 + 1)).isEmpty then
                      [MathNode.placeholder]
                      else children.take (pos.offset - 1) ++
                        children.drop (pos.offset - 1 + 1))),
                  cursor pos.path (max 0 (pos.offset - 1)))) = some (r, c) := h2
            clear h2
            have htc : nonEmptyRows targetChild = true :=
              hrow.2 targetChild (List.get?_mem hg)
            cases hsn : Del.isStructuredNode targetChild with
            | true =>
              rw [hsn, if_pos rfl] at h3
              exact flattenStructureBackward_nonEmptyRows root pos.path (pos.offset - 1)
                targetChild r c hroot htc h3
            | false =>
              rw [hsn] at h3
              rw [if_neg (by decide)] at h3
              simp only [Option.some.injEq, Prod.mk.injEq] at h3
              obtain ⟨hr, _⟩ := h3
              subst hr
              apply replaceNodeAtPath_nonEmptyRows _ _ _ hroot
              apply spliceRow_nonEmptyRows
              intro x hx
              rw [List.mem_append] at hx
              rcases hx with htake | hdrop
              · exact hrow.2 x (List.mem_of_mem_take htake)
              · exact hrow.2 x (List.mem_of_mem_drop hdrop)
      | forward =>
        have h2 : (if pos.offset ≥ children.length then none
          else
            match children.get? pos.offset with
            | none => none
            | some targetChild =>
              if Del.isStructuredNode targetChild then
                Del.flattenStructureForward root pos.path pos.offset targetChild
              else
                some (Del.replaceNodeAtPath root pos.path
                    (.row (if (children.take pos.offset ++
                        children.drop (pos.offset + 1)).isEmpty then
                      [MathNode.placeholder]
                      else children.take pos.offset ++
                        children.drop (pos.offset + 1))),
                  cursor pos.path pos.offset)) = some (r, c) := h
        clear h
        by_cases hge : pos.offset ≥ children.length
        · rw [if_pos hge] at h2; cases h2
        · rw [if_neg hge] at h2
          cases hg : children.get? pos.offset with
          | none => rw [hg] at h2; cases h2
          | some targetChild =>
            rw [hg] at h2
            have h3 : (if Del.isStructuredNode targetChild = true then
                Del.flattenStructureForward root pos.path pos.offset targetChild
              else
                some (Del.replaceNodeAtPath root pos.path
                    (.row (if (children.take pos.offset ++
                        children.drop (pos.offset + 1)).isEmpty then
                      [MathNode.placeholder]
                      else children.take pos.offset ++
                        children.drop (pos.offset + 1))),
                  cursor pos.path pos.offset)) = some (r, c) := h2
            clear h2
            have htc : nonEmptyRows targetChild = true :=
              hrow.2 targetChild (List.get?_mem hg)
            cases hsn : Del.isStructuredNode targetChild with
            | true =>
              rw [hsn, if_pos rfl] at h3
              exact flattenStructureBackward_nonEmptyRows root pos.path pos.offset
                targetChild r c hroot htc h3
            | false =>
              rw [hsn] at h3
              rw [if_neg (by decide)] at h3
              simp only [Option.some.injEq, Prod.mk.injEq] at h3
              obtain ⟨hr, _⟩ := h3
              subst hr
              apply replaceNodeAtPath_nonEmptyRows _ _ _ hroot
              apply spliceRow_nonEmptyRows
              intro x hx
              rw [List.mem_append] at hx
              rcases hx with htake | hdrop
              · exact hrow.2 x (List.mem_of_mem_take htake)
              · exact hrow.2 x (List.mem_of_mem_drop hdrop)
    | number v => cases h
    | symbol v => cases h
    | operator v => cases h
    | text v => cases h
    | space v => cases h
    | fraction a b => cases h
    | power a b => cases h
    | subscript a b => cases h
    | subsup a b e => cases h
    | sqrt a b => cases h
    | parens a b e d => cases h
    | func a b e => cases h
    | matrix a b e => cases h

theorem rangeWalk_sound (root : MathNode) :
    ∀ (k : Nat) (p rp : List Nat) (n : MathNode),
      Del.rangeWalk root k p = (rp, some n) → getNodeAtPath root rp = some n := by
  intro k
  induction k with
  | zero =>
    intro p rp n h
    have h2 : (p, getNodeAtPath root p) = (rp, some n) := h
    rw [Prod.mk.injEq] at h2
    obtain ⟨hp, hn⟩ := h2
    subst hp
    exact hn
  | succ k ih =>
    intro p rp n h
    have h2 : (match getNodeAtPath root p with
      | some (MathNode.row cs) => (p, some (MathNode.row cs))
      | some _ => Del.rangeWalk root k (parentPath p)
      | none => (p, (none : Option MathNode))) = (rp, some n) := h
    cases hg : getNodeAtPath root p with
    | none =>
      rw [hg] at h2
      rw [Prod.mk.injEq] at h2
      cases h2.2
    | some node =>
      rw [hg] at h2
      cases node with
      | row cs =>
        rw [Prod.mk.injEq] at h2
        obtain ⟨hp, hn⟩ := h2
        subst hp
        cases hn
        exact hg
      | number v => exact ih _ _ _ h2
      | symbol v => exact ih _ _ _ h2
      | operator v => exact ih _ _ _ h2
      | text v => exact ih _ _ _ h2
      | space v => exact ih _ _ _ h2
      | placeholder => exact ih _ _ _ h2
      | fraction a b => exact ih _ _ _ h2
      | power a b => exact ih _ _ _ h2
      | subscript a b => exact ih _ _ _ h2
      | subsup a b e => exact ih _ _ _ h2
      | sqrt a b => exact ih _ _ _ h2
      | parens a b e d => exact ih _ _ _ h2
      | func a b e => exact ih _ _ _ h2
      | matrix a b e => exact ih _ _ _ h2

theorem deleteRange_nonEmptyRows (root : MathNode) (sel : Selection) (r : MathNode)
    (c : CursorPosition) (hroot : nonEmptyRows root = true)
    (h : Del.deleteRange root sel = some (r, c)) : nonEmptyRows r = true := by
  unfold Del.deleteRange at h
  have h2 : (if ((getStart sel).path == (getEnd sel).path) = true then
      match getNodeAtPath root (getStart sel).path with
      | some (MathNode.row children) =>
        some (Del.replaceNodeAtPath root (getStart sel).path
            (MathNode.row (if (children.take (getStart sel).offset ++
                children.drop (getEnd sel).offset).isEmpty then [MathNode.placeholder]
              else children.take (getStart sel).offset ++
                children.drop (getEnd sel).offset)),
          getStart sel)
      | _ => none
    else
      match Del.rangeWalk root
          (Del.findCommonAncestorPath (getStart sel).path (getEnd sel).path).length
          (Del.findCommonAncestorPath (getStart sel).path (getEnd sel).path) with
      | (rowPath, some (MathNode.row children)) =>
        some (Del.replaceNodeAtPath root rowPath (MathNode.row
            (if (children.take (min (if (getStart sel).path.length > rowPath.length then
                    (getStart sel).path.getD rowPath.length 0
                  else if ((getStart sel).path.length == rowPath.length) = true then
                    (getStart sel).offset
                  else 0) children.length) ++
                children.drop (max (min (if (getStart sel).path.length > rowPath.length then
                    (getStart sel).path.getD rowPath.length 0
                  else if ((getStart sel).path.length == rowPath.length) = true then
                    (getStart sel).offset
                  else 0) children.length)
                  (min (if (getEnd sel).path.length > rowPath.length then
                    (getEnd sel).path.getD rowPath.length 0 + 1
                  else if ((getEnd sel).path.length == rowPath.length) = true then
                    (getEnd sel).offset
                  else children.length) children.length))).isEmpty then
              [MathNode.placeholder]
              else children.take (min (if (getStart sel).path.length > rowPath.length then
                    (getStart sel).path.getD rowPath.length 0
                  else if ((getStart sel).path.length == rowPath.length) = true then
                    (getStart sel).offset
                  else 0) children.length) ++
                children.drop (max (min (if (getStart sel).path.length > rowPath.length then
                    (getStart sel).path.getD rowPath.length 0
                  else if ((getStart sel).path.length == rowPath.length) = true then
                    (getStart sel).offset
                  else 0) children.length)
                  (min (if (getEnd sel).path.length > rowPath.length then
                    (getEnd sel).path.getD rowPath.length 0 + 1
                  else if ((getEnd sel).path.length == rowPath.length) = true then
                    (getEnd sel).offset
                  else children.length) children.length)))),
          cursor rowPath (min (if (getStart sel).path.length > rowPath.length then
              (getStart sel).path.getD rowPath.length 0
            else if ((getStart sel).path.length == rowPath.length) = true then
              (getStart sel).offset
            else 0) children.length))
      | _ => some (root, getStart sel)) = some (r, c) := h
  clear h
  cases hpq : ((getStart sel).path == (getEnd sel).path) with
  | true =>
    rw [hpq, if_pos rfl] at h2
    cases hg : getNodeAtPath root (getStart sel).path with
    | none => rw [hg] at h2; cases h2
    | some node =>
      rw [hg] at h2
      cases node with
      | row children =>
        have hrowinv := getNodeAtPath_nonEmptyRows _ root _ hroot hg
        rw [nonEmptyRows_row_iff] at hrowinv
        have h3 : some (Del.replaceNodeAtPath root (getStart sel).path
            (MathNode.row (if (children.take (getStart sel).offset ++
                children.drop (getEnd sel).offset).isEmpty then [MathNode.placeholder]
              else children.take (getStart sel).offset ++
                children.drop (getEnd sel).offset)),
          getStart sel) = some (r, c) := h2
        simp only [Option.some.injEq, Prod.mk.injEq] at h3
        obtain ⟨hr, _⟩ := h3
        subst hr
        apply replaceNodeAtPath_nonEmptyRows _ _ _ hroot
        apply spliceRow_nonEmptyRows
        intro x hx
        rw [List.mem_append] at hx
        rcases hx with ht | hd
        · exact hrowinv.2 x (List.mem_of_mem_take ht)
        · exact hrowinv.2 x (List.mem_of_mem_drop hd)
      | number v => cases h2
      | symbol v => cases h2
      | operator v => cases h2
      | text v => cases h2
      | space v => cases h2
      | placeholder => cases h2
      | fraction a b => cases h2
      | power a b => cases h2
      | subscript a b => cases h2
      | subsup a b e => cases h2
      | sqrt a b => cases h2
      | parens a b e d => cases h2
      | func a b e => cases h2
      | matrix a b e => cases h2
  | false =>
    rw [hpq] at h2
    rw [if_neg (by decide)] at h2
    rcases hrw : Del.rangeWalk root
        (Del.findCommonAncestorPath (getStart sel).path (getEnd sel).path).length
        (Del.findCommonAncestorPath (getStart sel).path (getEnd sel).path)
      with ⟨rowPath, opt⟩
    rw [hrw] at h2
    cases opt with
    | none =>
      have h3 : some (root, getStart sel) = some (r, c) := h2
      simp only [Option.some.injEq, Prod.mk.injEq] at h3
      obtain ⟨hr, _⟩ := h3
      subst hr
      exact hroot
    | some node =>
      cases node with
      | row children =>
        have hgr : getNodeAtPath root rowPath = some (MathNode.row children) :=
          rangeWalk_sound root _ _ rowPath _ hrw
        have hrowinv := getNodeAtPath_nonEmptyRows _ root _ hroot hgr
        rw [nonEmptyRows_row_iff] at hrowinv
        simp only [Option.some.injEq, Prod.mk.injEq] at h2
        obtain ⟨hr, _⟩ := h2
        subst hr
        apply replaceNodeAtPath_nonEmptyRows _ _ _ hroot
        apply spliceRow_nonEmptyRows
        intro x hx
        rw [List.mem_append] at hx
        rcases hx with ht | hd
        · exact hrowinv.2 x (List.mem_of_mem_take ht)
        · exact hrowinv.2 x (List.mem_of_mem_drop hd)
      | number v =>
        have h3 : some (root, getStart sel) = some (r, c) := h2
        simp only [Option.some.injEq, Prod.mk.injEq] at h3
        obtain ⟨hr, _⟩ := h3
        subst hr
        exact hroot
      | symbol v =>
        have h3 : some (root, getStart sel) = some (r, c) := h2
        simp only [Option.some.injEq, Prod.mk.injEq] at h3
        obtain ⟨hr, _⟩ := h3
        subst hr
        exact hroot
      | operator v =>
        have h3 : some (root, getStart sel) = some (r, c) := h2
        simp only [Option.some.injEq, Prod.mk.injEq] at h3
        obtain ⟨hr, _⟩ := h3
        subst hr
        exact hroot
      | text v =>
        have h3 : some (root, getStart sel) = some (r, c) := h2
        simp only [Option.some.injEq, Prod.mk.injEq] at h3
        obtain ⟨hr, _⟩ := h3
        subst hr
        exact hroot
      | space v =>
        have h3 : some (root, getStart sel) = some (r, c) := h2
        simp only [Option.some.injEq, Prod.mk.injEq] at h3
        obtain ⟨hr, _⟩ := h3
        subst hr
        exact hroot
      | placeholder =>
        have h3 : some (root, getStart sel) = some (r, c) := h2
        simp only [Option.some.injEq, Prod.mk.injEq] at h3
        obtain ⟨hr, _⟩ := h3
        subst hr
        exact hroot
      | fraction a b =>
        have h3 : some (root, getStart sel) = some (r, c) := h2
        simp only [Option.some.injEq, Prod.mk.injEq] at h3
        obtain ⟨hr, _⟩ := h3
        subst hr
        exact hroot
      | power a b =>
        have h3 : some (root, getStart sel) = some (r, c) := h2
        simp only [Option.some.injEq, Prod.mk.injEq] at h3
        obtain ⟨hr, _⟩ := h3
        subst hr
        exact hroot
      | subscript a b =>
        have h3 : some (root, getStart sel) = some (r, c) := h2
        simp only [Option.some.injEq, Prod.mk.injEq] at h3
        obtain ⟨hr, _⟩ := h3
        subst hr
        exact hroot
      | subsup a b e =>
        have h3 : some (root, getStart sel) = some (r, c) := h2
        simp only [Option.some.injEq, Prod.mk.injEq] at h3
        obtain ⟨hr, _⟩ := h3
        subst hr
        exact hroot
      | sqrt a b =>
        have h3 : some (root, getStart sel) = some (r, c) := h2
        simp only [Option.some.injEq, Prod.mk.injEq] at h3
        obtain ⟨hr, _⟩ := h3
        subst hr
        exact hroot
      | parens a b e d =>
        have h3 : some (root, getStart sel) = some (r, c) := h2
        simp only [Option.some.injEq, Prod.mk.injEq] at h3
        obtain ⟨hr, _⟩ := h3
        subst hr
        exact hroot
      | func a b e =>
        have h3 : some (root, getStart sel) = some (r, c) := h2
        simp only [Option.some.injEq, Prod.mk.injEq] at h3
        obtain ⟨hr, _⟩ := h3
        subst hr
        exact hroot
      | matrix a b e =>
        have h3 : some (root, getStart sel) = some (r, c) := h2
        simp only [Option.some.injEq, Prod.mk.injEq] at h3
        obtain ⟨hr, _⟩ := h3
        subst hr
        exact hroot

theorem moveLeft_root (ext : Bool) (s s2 : EditorState) (h : moveLeft ext s = some s2) :
    s2.root = s.root := by
  unfold moveLeft at h
  cases hc : (!isCollapsed s.selection && !ext) with
  | true =>
    rw [hc, if_pos rfl] at h
    simp only [Option.some.injEq] at h
    rw [← h]
    rfl
  | false =>
    rw [hc] at h
    rw [if_neg (by decide)] at h
    cases hmc : moveCursorLeft s.root s.selection.focus with
    | none => rw [hmc] at h; cases h
    | some newPos =>
      rw [hmc] at h
      have h2 : some (updateSelection s
          (if ext = true then extendTo s.selection newPos
           else collapsedSelection newPos)) = some s2 := h
      simp only [Option.some.injEq] at h2
      rw [← h2]
      rfl

theorem deleteSelection_nonEmptyRows (s s2 : EditorState)
    (hroot : nonEmptyRows s.root = true) (h : Del.deleteSelection s = some s2) :
    nonEmptyRows s2.root = true := by
  unfold Del.deleteSelection at h
  cases hco : isCollapsed s.selection with
  | true => rw [hco, if_pos rfl] at h; cases h
  | false =>
    rw [hco] at h
    rw [if_neg (by decide)] at h
    cases hdr : Del.deleteRange s.root s.selection with
    | none => rw [hdr] at h; cases h
    | some pr =>
      obtain ⟨newRoot, newPos⟩ := pr
      rw [hdr] at h
      have h2 : some (updateState s newRoot (collapsedSelection newPos)) = some s2 := h
      simp only [Option.some.injEq] at h2
      rw [← h2]
      exact deleteRange_nonEmptyRows s.root s.selection newRoot newPos hroot hdr

theorem deleteBackward_nonEmptyRows (s s2 : EditorState)
    (hroot : nonEmptyRows s.root = true) (h : Del.deleteBackward s = some s2) :
    nonEmptyRows s2.root = true := by
  unfold Del.deleteBackward at h
  cases hco : isCollapsed s.selection with
  | false =>
    rw [hco, if_pos (by decide)] at h
    exact deleteSelection_nonEmptyRows s s2 hroot h
  | true =>
    rw [hco] at h
    rw [if_neg (by decide)] at h
    cases hdp : Del.deleteAtPosition s.root s.selection.focus .backward with
    | none =>
      rw [hdp] at h
      have hr := moveLeft_root false s s2 h
      rw [hr]
      exact hroot
    | some pr =>
      obtain ⟨newRoot, newPos⟩ := pr
      rw [hdp] at h
      have h2 : some (updateState s newRoot (collapsedSelection newPos)) = some s2 := h
      simp only [Option.some.injEq] at h2
      rw [← h2]
      exact deleteAtPosition_nonEmptyRows s.root s.selection.focus .backward
        newRoot newPos hroot hdp

theorem deleteForward_nonEmptyRows (s s2 : EditorState)
    (hroot : nonEmptyRows s.root = true) (h : Del.deleteForward s = some s2) :
    nonEmptyRows s2.root = true := by
  unfold Del.deleteForward at h
  cases hco : isCollapsed s.selection with
  | false =>
    rw [hco, if_pos (by decide)] at h
    exact deleteSelection_nonEmptyRows s s2 hroot h
  | true =>
    rw [hco] at h
    rw [if_neg (by decide)] at h
    cases hdp : Del.deleteAtPosition s.root s.selection.focus .forward with
    | none => rw [hdp] at h; cases h
    | some pr =>
      obtain ⟨newRoot, newPos⟩ := pr
      rw [hdp] at h
      have h2 : some (updateState s newRoot (collapsedSelection newPos)) = some s2 := h
      simp only [Option.some.injEq] at h2
      rw [← h2]
      exact deleteAtPosition_nonEmptyRows s.root s.selection.focus .forward
        newRoot newPos hroot hdp

theorem applyDeleteOp_nonEmptyRows (op : DeleteOp) (s : EditorState)
    (hroot : nonEmptyRows s.root = true) :
    nonEmptyRows (applyDeleteOp op s).root = true := by
  cases op with
  | backward =>
    show nonEmptyRows ((Del.deleteBackward s).getD s).root = true
    cases hd : Del.deleteBackward s with
    | none => exact hroot
    | some s2 => exact deleteBackward_nonEmptyRows s s2 hroot hd
  | forward =>
    show nonEmptyRows ((Del.deleteForward s).getD s).root = true
    cases hd : Del.deleteForward s with
    | none => exact hroot
    | some s2 => exact deleteForward_nonEmptyRows s s2 hroot hd
  | selection =>
    show nonEmptyRows ((Del.deleteSelection s).getD s).root = true
    cases hd : Del.deleteSelection s with
    | none => exact hroot
    | some s2 => exact deleteSelection_nonEmptyRows s s2 hroot hd

theorem runDeleteOps_nonEmptyRows (ops : List DeleteOp) :
    ∀ s : EditorState, nonEmptyRows s.root = true →
      nonEmptyRows (runDeleteOps ops s).root = true := by
  induction ops with
  | nil => intro s h; exact h
  | cons op rest ih =>
    intro s h
    exact ih (applyDeleteOp op s) (applyDeleteOp_nonEmptyRows op s h)

/-- C2: starting from a normalized state (every row non-empty and every
structure slot a row), any finite sequence of deleteBackward, deleteForward
and deleteSelection commands leaves a tree in which every row still has at
least one child. -/
theorem delete_preserves_nonempty_rows (s : EditorState) (ops : List DeleteOp)
    (hne : nonEmptyRows s.root = true) (hslots : slotsNormalized s.root = true) :
    nonEmptyRows (runDeleteOps ops s).root = true :=
  runDeleteOps_nonEmptyRows ops s hne

/-- Witness for C2: the empty editor state is normalized, and a
backward-forward-selection delete sequence keeps all rows non-empty. -/
theorem delete_preserves_nonempty_rows_witness :
    nonEmptyRows createEmptyState.root = true ∧
    slotsNormalized createEmptyState.root = true ∧
    nonEmptyRows (runDeleteOps [DeleteOp.backward, DeleteOp.forward, DeleteOp.selection]
      createEmptyState).root = true :=
  ⟨rfl, rfl, delete_preserves_nonempty_rows createEmptyState
    [DeleteOp.backward, DeleteOp.forward, DeleteOp.selection] rfl rfl⟩

/-- C5 counterexample: the end-to-end scenario (insert x, superscript,
insert 2, move right, insert =, insert y; serialize without placeholders)
produces "x^{2}=y", not the claimed exact string "x^2=y" — the exponent
slot is a row, and the serializer always braces row exponents. -/
theorem scenario_counterexample :
    c5Serialized = "x^{2}=y" ∧ c5Serialized ≠ "x^2=y" :=
  ⟨rfl, by decide⟩

/-- C5 amended: the scenario yields the tree x^2=y with the exponent in a
row slot, its serialization with placeholders excluded is exactly
"x^{2}=y", and that string is AST-equal (by parse and nodesEqual) to
"x^2=y". -/
theorem scenario_serializes_braced :
    c5ScenarioState = some
      ⟨MathNode.row [.power (.symbol "x") (.row [.number "2"]), .operator "=", .symbol "y"],
        collapsedSelection ⟨[], 3⟩⟩ ∧
    c5Serialized = "x^{2}=y" ∧
    (match parseLatex c5Serialized, parseLatex "x^2=y" with
     | .ok a, .ok b => nodesEqual a b
     | _, _ => false) = true :=
  ⟨rfl, rfl, rfl⟩

end PeachMath
